import Mathlib

/-!
Verification of the `undump` binary-chunk decoder (src/core/syx/src/undump.rs).

The decoder is embedded shallowly: the byte cursor becomes a `List Nat` of
remaining bytes, and each `fn load_*` of `LoadState` becomes a function
`List Nat → Except ErrorKind α × List Nat` that returns the decoded value (or
the error) together with the remaining input.  The Rust methods mutate
`self.input` (an iterator) even on the failure paths, so the embedding threads
the remaining input through errors as well.

Parts of the repository referenced by `undump.rs` but not part of its source
(`conf.rs`, `object.rs`, `opcodes.rs`, `errors.rs`, `limits.rs`) are modelled
from the spec where they matter; each such definition carries a
`Modelled from the spec:` note.

The recursion of `load_function` through `load_protos` is made structural with
an explicit fuel argument; the entry point `from_u8` supplies one unit of fuel
more than the buffer length, which is shown to be irrelevant by the
fuel-monotonicity lemmas further down (every nesting level consumes at least
one byte).
-/

/-- Error kinds raised by the decoder.  `errors.rs` is not part of the given
source tree; the constructors are exactly those raised in `undump.rs`
(`BufferNotReadable`, `InvalidVerification(name, check)`, `BufferNotEmpty`,
`InvalidConstantType`, `InvalidUpvalueIndex`, `InvalidSourceName`), which match
the spec taxonomy (§7): `InvalidVerification` doubles as the truncation error
(`load_range` raises it with message "Not enough bytes"), `BufferNotEmpty` is
the spec's TrailingData.  `Depth` is an artifact of the fuel-indexed embedding
of the unbounded recursion; it is shown unreachable for the fuel chosen by
`from_u8`.  `Panic` is not an `errors.rs` variant either: it embeds a Rust
panic as a terminal outcome — raised here only by `Vec::reserve`'s
deterministic capacity-overflow check (see `vecReserve`). -/
inductive ErrorKind where
  | BufferNotReadable : String → ErrorKind
  | InvalidVerification : String → String → ErrorKind
  | BufferNotEmpty : ErrorKind
  | InvalidConstantType : Nat → ErrorKind
  | InvalidUpvalueIndex : Nat → ErrorKind
  | InvalidSourceName : ErrorKind
  | Depth : ErrorKind
  | Panic : String → ErrorKind
deriving DecidableEq, Repr

/-- Instruction: `opcodes.rs` is not part of the given source tree.
Modelled from the spec: §1 scopes "opcode semantics beyond raw word capture"
out as an external collaborator, so the conversion from a fixed-width word
captures the raw word. -/
inductive Instruction where
  | raw : Nat → Instruction
deriving DecidableEq, Repr

/-- Modelled from the spec: the `Word → Instruction` conversion
(`self.load::<Word>()?.try_into()?` in `load_code`); raw word capture. -/
def instruction_try_from (w : Nat) : Except ErrorKind Instruction :=
  Except.ok (Instruction.raw w)

/-- Constant values (`SyxValue` in `object.rs`, variants as used by
`load_constants`).  Floats carry their 64-bit pattern: the decoder never
computes with them, it only moves verified-width bytes. -/
inductive SyxValue where
  | Nil : SyxValue
  | Bool : Bool → SyxValue
  | Number : Nat → SyxValue
  | Integer : Int → SyxValue
  | String : List Nat → SyxValue
deriving DecidableEq, Repr

/-- Upvalue descriptor, fields as written by `load_upvalues` / `load_debug`. -/
structure Upvalue where
  name : List Nat
  instack : Nat
  idx : Nat
deriving DecidableEq, Repr

/-- Local-variable debug record, fields as written by `load_debug`. -/
structure LocVar where
  varname : List Nat
  startpc : Int
  endpc : Int
deriving DecidableEq, Repr

/-- One compiled function (`Proto` in `object.rs`), fields as written by
`load_function` and its callees.  `source` keeps the raw bytes of the
(UTF-8-validated) name: Rust's `String` is exactly its UTF-8 byte content, so
byte-list equality is string equality. -/
inductive Proto where
  | mk :
    (source : List Nat) →
    (linedefined : Int) →
    (lastlinedefined : Int) →
    (numparams : Nat) →
    (is_vararg : Bool) →
    (maxstacksize : Nat) →
    (instructions : List Instruction) →
    (constants : List SyxValue) →
    (upvalues : List Upvalue) →
    (protos : List Proto) →
    (lineinfo : List Int) →
    (locvars : List LocVar) → Proto

def Proto.source : Proto → List Nat
  | .mk s _ _ _ _ _ _ _ _ _ _ _ => s

def Proto.linedefined : Proto → Int
  | .mk _ l _ _ _ _ _ _ _ _ _ _ => l

def Proto.lastlinedefined : Proto → Int
  | .mk _ _ l _ _ _ _ _ _ _ _ _ => l

def Proto.numparams : Proto → Nat
  | .mk _ _ _ n _ _ _ _ _ _ _ _ => n

def Proto.is_vararg : Proto → Bool
  | .mk _ _ _ _ v _ _ _ _ _ _ _ => v

def Proto.maxstacksize : Proto → Nat
  | .mk _ _ _ _ _ m _ _ _ _ _ _ => m

def Proto.instructions : Proto → List Instruction
  | .mk _ _ _ _ _ _ i _ _ _ _ _ => i

def Proto.constants : Proto → List SyxValue
  | .mk _ _ _ _ _ _ _ c _ _ _ _ => c

def Proto.upvalues : Proto → List Upvalue
  | .mk _ _ _ _ _ _ _ _ u _ _ _ => u

def Proto.protos : Proto → List Proto
  | .mk _ _ _ _ _ _ _ _ _ p _ _ => p

def Proto.lineinfo : Proto → List Int
  | .mk _ _ _ _ _ _ _ _ _ _ li _ => li

def Proto.locvars : Proto → List LocVar
  | .mk _ _ _ _ _ _ _ _ _ _ _ lv => lv

/-! ### Numeric helpers

The Rust `load::<T>` reads `size_of::<T>()` bytes and reinterprets them in the
host's native layout; the host is 64-bit little-endian (spec §4.3, §9:
"explicit bit-assembly rule matching the host's native layout"). -/

/-- Little-endian value of a byte list. -/
def leVal (l : List Nat) : Nat :=
  l.foldr (fun b acc => b + 256 * acc) 0

/-- Little-endian encoding of `n` on `k` bytes. -/
def leBytes : Nat → Nat → List Nat
  | 0, _ => []
  | k + 1, n => (n % 256) :: leBytes k (n / 256)

/-- Two's-complement reading of a `w`-bit unsigned value. -/
def toSigned (w : Nat) (n : Nat) : Int :=
  if n < 2 ^ (w - 1) then (n : Int) else (n : Int) - 2 ^ w

/-- The `as usize` cast of a (64-bit) signed value: bit-pattern reinterpretation. -/
def usizeOfInt (i : Int) : Nat :=
  (i % (2 ^ 64 : Int)).toNat

theorem leBytes_length (k n : Nat) : (leBytes k n).length = k := by
  induction k generalizing n with
  | zero => rfl
  | succ k ih => simp [leBytes, ih]

theorem leVal_leBytes (k n : Nat) (h : n < 2 ^ (8 * k)) :
    leVal (leBytes k n) = n := by
  induction k generalizing n with
  | zero =>
    simp [leBytes, leVal]
    omega
  | succ k ih =>
    have hlt : n / 256 < 2 ^ (8 * k) := by
      have : 2 ^ (8 * (k + 1)) = 2 ^ (8 * k) * 256 := by ring
      omega
    simp only [leBytes, leVal, List.foldr_cons]
    have := ih (n / 256) hlt
    simp only [leVal] at this
    rw [this]
    omega

/-! ### Format constants

Modelled from the spec: the literal values live in `conf.rs`, which is not part
of the given source tree.  The spec (§6) fixes their roles (magic literal,
version byte, format-tag byte, load-order canary literal, five size bytes,
platform-width integer canary, wide-float canary); concrete values are chosen
here.  No claim depends on the particular values, only on the checks made with
them. -/

def SYX_HEADER : List Nat := [27, 83, 121, 120]

def SYX_VERSION : Nat := 83

def SYX_FORMAT : Nat := 0

def SYX_DATA : List Nat := [25, 147, 13, 10, 26, 10]

def SYX_INT : Int := 22136

/-- Bit pattern of the wide-float canary (the decoder only compares the
verified-width bytes it read, so the canary is kept as its 64-bit pattern). -/
def SYX_NUM_BITS : Nat := 0x4077280000000000

/-! ### Parser core

`P α` is the embedding of a `&mut LoadState` method returning `Result<α>`:
it consumes from the byte list and always returns the advanced cursor. -/

abbrev P (α : Type) := List Nat → Except ErrorKind α × List Nat

def ppure {α : Type} (a : α) : P α := fun input => (Except.ok a, input)

def pfail {α : Type} (e : ErrorKind) : P α := fun input => (Except.error e, input)

def pbind {α β : Type} (p : P α) (f : α → P β) : P β := fun input =>
  match p input with
  | (Except.ok a, rest) => f a rest
  | (Except.error e, rest) => (Except.error e, rest)

/-- Lift a pure `Result` (e.g. a `try_into()?`) into the cursor monad. -/
def plift {α : Type} (e : Except ErrorKind α) : P α := fun input => (e, input)

/-- `Vec::reserve(n)` before the count-driven loops of `load_code`,
`load_upvalues`, `load_protos` and `load_debug`: it consumes no input, and it
panics ("capacity overflow") when the requested capacity exceeds `isize::MAX`
bytes.  With any positive element size this is forced for `n ≥ 2^63` elements,
which is the value of every negative count cast `as usize`, so those requests
panic deterministically; whether a smaller request overflows depends on the
element type's size (declared outside `src/`), and such requests cannot be
satisfied by any input the decoder could finish reading anyway, so they are
modelled as succeeding. -/
def vecReserve (n : Nat) : P Unit := fun input =>
  (if n < 2 ^ 63 then Except.ok ()
   else Except.error (ErrorKind.Panic "capacity overflow"), input)

/-- `fn load_range`: take exactly `n` bytes; a short take consumes whatever was
left (`take` on the iterator) and raises `InvalidVerification` with the
"Not enough bytes" message via `assert_verification`. -/
def load_range (nm : String) (n : Nat) : P (List Nat) := fun input =>
  let v := input.take n
  if v.length = n then (Except.ok v, input.drop n)
  else
    (Except.error (ErrorKind.InvalidVerification nm ("Not enough bytes: " ++ toString n)),
     input.drop n)

/-- `load::<u8>()`. -/
def loadU8 (nm : String) : P Nat :=
  pbind (load_range nm 1) fun v => ppure (v.getD 0 0)

/-- `load::<T>()` for a `k`-byte unsigned scalar (native little-endian
bit assembly). -/
def loadScalar (nm : String) (k : Nat) : P Nat :=
  pbind (load_range nm k) fun v => ppure (leVal v)

/-- `load::<i32>()`. -/
def loadI32 (nm : String) : P Int :=
  pbind (loadScalar nm 4) fun n => ppure (toSigned 32 n)

/-- `load::<SyxInt>()`: the platform-sized signed integer (8 bytes). -/
def loadSyxInt (nm : String) : P Int :=
  pbind (loadScalar nm 8) fun n => ppure (toSigned 64 n)

/-- `load::<usize>()`. -/
def loadUsize (nm : String) : P Nat := loadScalar nm 8

/-- `load::<SyxInteger>()`: the wide integer constant (8 bytes, signed). -/
def loadSyxInteger (nm : String) : P Int := loadSyxInt nm

/-- `load::<SyxNumber>()`: the wide float constant, kept as its 64-bit
pattern. -/
def loadNumBits (nm : String) : P Nat := loadScalar nm 8

/-- `load::<Word>()`: the fixed-width instruction word (4 bytes). -/
def loadWord (nm : String) : P Nat := loadScalar nm 4

/-- `fn assert_verification` / `fn raise_from_verification`. -/
def assertv (nm : String) (val : Bool) (err : String) : P Unit := fun input =>
  (if val then Except.ok () else Except.error (ErrorKind.InvalidVerification nm err), input)

/-- `fn check_literal`: an exhausted read is swallowed (`else { Ok(()) }`),
leaving the cursor drained. -/
def check_literal (nm : String) (value : List Nat) (err : String) : P Unit := fun input =>
  match load_range nm value.length input with
  | (Except.ok lit, rest) =>
    (if lit = value then Except.ok ()
     else Except.error (ErrorKind.InvalidVerification nm ("literal mismatch: " ++ err)),
     rest)
  | (Except.error _, rest) => (Except.ok (), rest)

/-- `fn check_size`: an exhausted read is swallowed (`else { Ok(()) }`). -/
def check_size (nm : String) (sz : Nat) (tyname : String) : P Unit := fun input =>
  match loadU8 nm input with
  | (Except.ok b, rest) =>
    (if b = sz then Except.ok ()
     else Except.error (ErrorKind.InvalidVerification nm ("size mismatch: " ++ tyname)),
     rest)
  | (Except.error _, rest) => (Except.ok (), rest)

/-- `fn check_header`: the verifier sequence, in source order. -/
def check_header (nm : String) : P Unit :=
  pbind (check_literal nm SYX_HEADER "header") fun _ =>
  pbind (loadU8 nm) fun bt =>
  pbind (assertv nm (bt = SYX_VERSION) "version mismatch") fun _ =>
  pbind (loadU8 nm) fun bt2 =>
  pbind (assertv nm (bt2 = SYX_FORMAT) "format mismatch") fun _ =>
  pbind (check_literal nm SYX_DATA "load order verification") fun _ =>
  pbind (check_size nm 4 "i32") fun _ =>
  pbind (check_size nm 8 "usize") fun _ =>
  pbind (check_size nm 4 "Word") fun _ =>
  pbind (check_size nm 8 "SyxInteger") fun _ =>
  pbind (check_size nm 8 "SyxNumber") fun _ =>
  pbind (loadSyxInteger nm) fun int =>
  pbind (assertv nm (int = SYX_INT) "endianness mismatch") fun _ =>
  pbind (loadNumBits nm) fun float =>
  pbind (assertv nm (float = SYX_NUM_BITS) "float format mismatch") fun _ =>
  ppure ()

/-- The exact byte sequence a successful `check_header` consumes: every check
pins its bytes (literals, version/format, the five sizes, both canaries). -/
def headerBytes : List Nat :=
  SYX_HEADER ++ [SYX_VERSION, SYX_FORMAT] ++ SYX_DATA ++ [4, 8, 4, 8, 8] ++
    leBytes 8 (Int.toNat SYX_INT) ++ leBytes 8 SYX_NUM_BITS

/-- `fn load_string`: one size byte, `0xFF` escaping to a platform-width size,
`0` the empty-string sentinel, otherwise `size - 1` raw bytes.  (The source's
`size < SYX_MAXSHORTLEN` branch runs `load_range(size)` in both arms, so it is
not represented.) -/
def loadString (nm : String) : P (List Nat) :=
  pbind (loadU8 nm) fun b =>
  pbind (if b = 255 then loadUsize nm else ppure b) fun size =>
  if size = 0 then ppure []
  else load_range nm (size - 1)

/-- Constant tag dispatch.  Modelled from the spec: `SyxType::try_from`
(`object.rs`) and the `match` of `load_constants` are folded into one closed
dispatch — §4.5: one tag byte from the closed enumeration {Nil, Boolean,
Float, Integer, ShortString, LongString}, "unrecognized tags fail with an
invalid-constant-type error naming the tag".  Tag bytes follow the format's
type-tag scheme (variant bit 4 distinguishes the two number and string
subtypes). -/
def TAG_NIL : Nat := 0
def TAG_BOOLEAN : Nat := 1
def TAG_NUMFLT : Nat := 3
def TAG_NUMINT : Nat := 19
def TAG_SHRSTR : Nat := 4
def TAG_LNGSTR : Nat := 20

/-- One entry of `load_constants`' loop body: tag byte, then the payload. -/
def loadConstant (nm : String) : P SyxValue :=
  pbind (loadU8 nm) fun tag =>
  if tag = TAG_NIL then ppure SyxValue.Nil
  else if tag = TAG_BOOLEAN then
    pbind (loadU8 nm) fun b => ppure (SyxValue.Bool (b = 1))
  else if tag = TAG_NUMFLT then
    pbind (loadNumBits nm) fun n => ppure (SyxValue.Number n)
  else if tag = TAG_NUMINT then
    pbind (loadSyxInteger nm) fun i => ppure (SyxValue.Integer i)
  else if tag = TAG_SHRSTR ∨ tag = TAG_LNGSTR then
    pbind (loadString nm) fun s => ppure (SyxValue.String s)
  else pfail (ErrorKind.InvalidConstantType tag)

/-- The `for _ in 0..constant_count` loop of `load_constants`. -/
def loopConstants (nm : String) : Nat → List SyxValue → P (List SyxValue)
  | 0, acc => ppure acc
  | n + 1, acc => pbind (loadConstant nm) fun v => loopConstants nm n (acc ++ [v])

/-- `fn load_constants`: signed 32-bit count (`as isize`), then that many tagged
entries; a negative count runs the loop zero times. -/
def loadConstants (nm : String) : P (List SyxValue) :=
  pbind (loadI32 nm) fun cnt => loopConstants nm cnt.toNat []

/-- The `for _ in 0..count` loop of `load_code`. -/
def loopCode (nm : String) : Nat → List Instruction → P (List Instruction)
  | 0, acc => ppure acc
  | n + 1, acc =>
    pbind (loadWord nm) fun w =>
    pbind (plift (instruction_try_from w)) fun i =>
    loopCode nm n (acc ++ [i])

/-- `fn load_code`: platform-int count, then `reserve(count as usize)`, then
that many instruction words. -/
def loadCode (nm : String) : P (List Instruction) :=
  pbind (loadSyxInt nm) fun cnt =>
  pbind (vecReserve (usizeOfInt cnt)) fun _ =>
  loopCode nm cnt.toNat []

/-- The `for _ in 0..upvalues_count` loop of `load_upvalues`. -/
def loopUpvalues (nm : String) : Nat → List Upvalue → P (List Upvalue)
  | 0, acc => ppure acc
  | n + 1, acc =>
    pbind (loadU8 nm) fun a =>
    pbind (loadU8 nm) fun b =>
    loopUpvalues nm n (acc ++ [⟨[], a, b⟩])

/-- `fn load_upvalues`: platform-int count, then `reserve(count as usize)`,
then (flag byte, index byte) pairs with empty names. -/
def loadUpvalues (nm : String) : P (List Upvalue) :=
  pbind (loadSyxInt nm) fun cnt =>
  pbind (vecReserve (usizeOfInt cnt)) fun _ =>
  loopUpvalues nm cnt.toNat []

/-- The lineinfo loop of `load_debug` (`for _ in 0..lines`). -/
def loopLines (nm : String) : Nat → List Int → P (List Int)
  | 0, acc => ppure acc
  | n + 1, acc => pbind (loadSyxInt nm) fun l => loopLines nm n (acc ++ [l])

/-- The locvars loop of `load_debug`. -/
def loopLocVars (nm : String) : Nat → List LocVar → P (List LocVar)
  | 0, acc => ppure acc
  | n + 1, acc =>
    pbind (loadString nm) fun v =>
    pbind (loadSyxInt nm) fun s =>
    pbind (loadSyxInt nm) fun e =>
    loopLocVars nm n (acc ++ [⟨v, s, e⟩])

/-- The upvalue-name back-fill loop of `load_debug`
(`for i in 0..upvalue_count { match proto.upvalues.get_mut(i) ... }`):
the counter `i` starts at 0, `n` is the number of remaining iterations. -/
def fillUpvalueNames (nm : String) : Nat → Nat → List Upvalue → P (List Upvalue)
  | 0, _, u => ppure u
  | n + 1, i, u =>
    match u.get? i with
    | some uv =>
      pbind (loadString nm) fun s =>
        fillUpvalueNames nm n (i + 1) (u.set i { uv with name := s })
    | none => pfail (ErrorKind.InvalidUpvalueIndex i)

/-- `fn load_debug`: three platform-int counts, each cast `as usize`
(bit-pattern reinterpretation — a negative count becomes a huge value),
driving the lineinfo, locvars and upvalue-name loops.  The lineinfo and locvar
counts are passed to `reserve` before their loops; the upvalue-name loop has no
`reserve`.  Takes the upvalue array built by `load_upvalues`, returns it with
names filled in. -/
def loadDebug (nm : String) (upvals : List Upvalue) :
    P (List Int × List LocVar × List Upvalue) :=
  pbind (loadSyxInt nm) fun l1 =>
  pbind (vecReserve (usizeOfInt l1)) fun _ =>
  pbind (loopLines nm (usizeOfInt l1) []) fun lineinfo =>
  pbind (loadSyxInt nm) fun l2 =>
  pbind (vecReserve (usizeOfInt l2)) fun _ =>
  pbind (loopLocVars nm (usizeOfInt l2) []) fun locvars =>
  pbind (loadSyxInt nm) fun l3 =>
  pbind (fillUpvalueNames nm (usizeOfInt l3) 0 upvals) fun ups =>
  ppure (lineinfo, locvars, ups)

/-! ### The recursive prototype reader

`load_function` recurses through `load_protos`; the Rust recursion is bounded
only by the input (spec §9).  The embedding indexes it by fuel, decremented at
each nesting level; fuel exhaustion yields the marker error `Depth`, proven
unreachable whenever the fuel exceeds the input length (every nesting level
consumes at least the one size byte of its source-name string before
recursing). -/

/-- `String::from_utf8` validity (Rust standard library): exact RFC 3629
UTF-8 well-formedness, excluding surrogates and overlong forms. -/
def utf8Cont (b : Nat) : Bool := 128 ≤ b ∧ b ≤ 191

def utf8Valid : List Nat → Bool
  | [] => true
  | b :: rest =>
    if b ≤ 127 then utf8Valid rest
    else if 194 ≤ b ∧ b ≤ 223 then
      match rest with
      | c1 :: r => utf8Cont c1 && utf8Valid r
      | [] => false
    else if 224 ≤ b ∧ b ≤ 239 then
      match rest with
      | c1 :: c2 :: r =>
        (if b = 224 then 160 ≤ c1 ∧ c1 ≤ 191
         else if b = 237 then 128 ≤ c1 ∧ c1 ≤ 159
         else utf8Cont c1 = true) &&
        utf8Cont c2 && utf8Valid r
      | _ => false
    else if 240 ≤ b ∧ b ≤ 244 then
      match rest with
      | c1 :: c2 :: c3 :: r =>
        (if b = 240 then 144 ≤ c1 ∧ c1 ≤ 191
         else if b = 244 then 128 ≤ c1 ∧ c1 ≤ 143
         else utf8Cont c1 = true) &&
        utf8Cont c2 && utf8Cont c3 && utf8Valid r
      | _ => false
    else false

/-- The `for _ in 0..count` loop of `load_protos`, parameterized over the
child-block parser (which is `load_function` at one fuel level less — the
parameterization keeps the recursion structural in the fuel).  Each child is a
fresh `Proto::new()` loaded by `load_function(&mut new_proto, vec![])`; the
empty default name `vec![]` is applied by the caller below. -/
def loopProtos (child : P Proto) : Nat → List Proto → P (List Proto)
  | 0, acc => ppure acc
  | n + 1, acc =>
    pbind child fun p => loopProtos child n (acc ++ [p])

/-- `fn load_protos`: platform-int count, then `reserve(count as usize)`, then
that many nested function blocks. -/
def loadProtosWith (nm : String) (child : P Proto) : P (List Proto) :=
  pbind (loadSyxInt nm) fun cnt =>
  pbind (vecReserve (usizeOfInt cnt)) fun _ =>
  loopProtos child cnt.toNat []

/-- `fn load_function(proto, source)`: the whole function-block read, in source
order; `source` is the caller-supplied default name used when the decoded name
is empty; the chosen name must be valid UTF-8 (`String::from_utf8(...)
.chain_err(|| ErrorKind::InvalidSourceName)`).  Nested blocks are read by
`load_protos` with `load_function(_, vec![])` at one fuel level less. -/
def loadFunction (nm : String) : Nat → List Nat → P Proto
  | 0, _ => pfail ErrorKind.Depth
  | fuel + 1, source =>
    pbind (loadString nm) fun loaded_source =>
    pbind (plift (let eff := if loaded_source ≠ [] then loaded_source else source
                  if utf8Valid eff then Except.ok eff
                  else Except.error ErrorKind.InvalidSourceName)) fun src =>
    pbind (loadSyxInt nm) fun linedefined =>
    pbind (loadSyxInt nm) fun lastlinedefined =>
    pbind (loadU8 nm) fun numparams =>
    pbind (loadU8 nm) fun va =>
    pbind (loadU8 nm) fun maxstacksize =>
    pbind (loadCode nm) fun code =>
    pbind (loadConstants nm) fun consts =>
    pbind (loadUpvalues nm) fun ups =>
    pbind (loadProtosWith nm (loadFunction nm fuel [])) fun protos =>
    pbind (loadDebug nm ups) fun dbg =>
    ppure (Proto.mk src linedefined lastlinedefined numparams (va ≠ 0) maxstacksize
      code consts ups protos dbg.1 dbg.2.1)

/-- `fn load_protos` at a given fuel level (children at one less). -/
def loadProtos (nm : String) (fuel : Nat) : P (List Proto) :=
  loadProtosWith nm (loadFunction nm fuel [])

/-- `fn load_chunk`: header verification, one discarded byte (the root's
upvalue count), then the root function block with the empty inherited name. -/
def loadChunk (nm : String) (fuel : Nat) : P Proto :=
  pbind (check_header nm) fun _ =>
  pbind (loadU8 nm) fun _upvals =>
  loadFunction nm fuel []

/-- `fn from_u8`: run `load_chunk`, then probe one more `u8` — if that read
succeeds, unconsumed bytes remain (`BufferNotEmpty`); its failure is the
success path.  Fuel is one more than the buffer length, enough for any nesting
the buffer can encode. -/
def from_u8 (buffer : List Nat) (nm : String) : Except ErrorKind Proto :=
  match loadChunk nm (buffer.length + 1) buffer with
  | (Except.error e, _) => Except.error e
  | (Except.ok proto, rest) =>
    match loadU8 nm rest with
    | (Except.error _, _) => Except.ok proto
    | (Except.ok _, _) => Except.error ErrorKind.BufferNotEmpty

/-- Discriminator: did decoding fail with `InvalidVerification`?  (The spec's
TruncatedInput is raised by `load_range` as `InvalidVerification` with a
"Not enough bytes" message.) -/
def isInvalidVerification : Except ErrorKind Proto → Bool
  | Except.error (ErrorKind.InvalidVerification _ _) => true
  | _ => false

/-- `from_u8` in terms of `load_chunk`: complete consumption succeeds. -/
theorem from_u8_of_chunk (B : List Nat) (nm : String) (P : Proto)
    (h : loadChunk nm (B.length + 1) B = (Except.ok P, [])) :
    from_u8 B nm = Except.ok P := by
  unfold from_u8
  rw [h]
  rfl

/-- `from_u8` propagates `load_chunk`'s error. -/
theorem from_u8_of_chunk_err (B : List Nat) (nm : String) (e : ErrorKind)
    (r : List Nat) (h : loadChunk nm (B.length + 1) B = (Except.error e, r)) :
    from_u8 B nm = Except.error e := by
  unfold from_u8
  rw [h]

/-- `from_u8` rejects leftover bytes. -/
theorem from_u8_of_chunk_leftover (B : List Nat) (nm : String) (P : Proto)
    (b : Nat) (r : List Nat)
    (h : loadChunk nm (B.length + 1) B = (Except.ok P, b :: r)) :
    from_u8 B nm = Except.error ErrorKind.BufferNotEmpty := by
  unfold from_u8
  rw [h]
  rfl


/-! ### Basic evaluation lemmas -/

theorem pbind_ok {α β : Type} {p : P α} {f : α → P β} {input : List Nat}
    {a : α} {rest : List Nat} (h : p input = (Except.ok a, rest)) :
    pbind p f input = f a rest := by
  simp [pbind, h]

theorem pbind_err {α β : Type} {p : P α} {f : α → P β} {input : List Nat}
    {e : ErrorKind} {rest : List Nat} (h : p input = (Except.error e, rest)) :
    pbind p f input = (Except.error e, rest) := by
  simp [pbind, h]

theorem load_range_exact (nm : String) (n : Nat) (xs rest : List Nat)
    (h : xs.length = n) : load_range nm n (xs ++ rest) = (Except.ok xs, rest) := by
  subst h
  simp [load_range, List.take_left, List.drop_left]

theorem loadU8_cons (nm : String) (b : Nat) (rest : List Nat) :
    loadU8 nm (b :: rest) = (Except.ok b, rest) := rfl

theorem loadU8_nil (nm : String) :
    loadU8 nm [] = (Except.error
      (ErrorKind.InvalidVerification nm "Not enough bytes: 1"), []) := rfl

theorem loadString_short (nm : String) (s : Nat) (payload rest : List Nat)
    (h255 : s ≠ 255) (h0 : s ≠ 0) (hlen : payload.length = s - 1) :
    loadString nm (s :: (payload ++ rest)) = (Except.ok payload, rest) := by
  unfold loadString
  rw [pbind_ok (loadU8_cons nm s (payload ++ rest)), if_neg h255,
    pbind_ok (rfl : ppure s (payload ++ rest) = (Except.ok s, payload ++ rest)),
    if_neg h0]
  exact load_range_exact nm (s - 1) payload rest hlen

theorem loadString_long (nm : String) (s : Nat) (payload rest : List Nat)
    (hs : s < 2 ^ 64) (h0 : s ≠ 0) (hlen : payload.length = s - 1) :
    loadString nm (255 :: (leBytes 8 s ++ (payload ++ rest))) =
      (Except.ok payload, rest) := by
  unfold loadString
  rw [pbind_ok (loadU8_cons nm 255 (leBytes 8 s ++ (payload ++ rest))), if_pos rfl]
  have husz : loadUsize nm (leBytes 8 s ++ (payload ++ rest)) =
      (Except.ok s, payload ++ rest) := by
    unfold loadUsize loadScalar
    rw [pbind_ok (load_range_exact nm 8 (leBytes 8 s) (payload ++ rest)
      (leBytes_length 8 s))]
    simp [ppure, leVal_leBytes 8 s hs]
  rw [pbind_ok husz, if_neg h0]
  exact load_range_exact nm (s - 1) payload rest hlen

/-! ### Claim C7 — zero-size string sentinel -/

theorem loadString_zero (nm : String) (rest : List Nat) :
    loadString nm (0 :: rest) = (Except.ok [], rest) := by
  unfold loadString
  rw [pbind_ok (loadU8_cons nm 0 rest), if_neg (by decide : (0 : Nat) ≠ 255),
    pbind_ok (rfl : ppure 0 rest = (Except.ok 0, rest)), if_pos rfl]
  rfl

theorem loadString_ff_zero (nm : String) (rest : List Nat) :
    loadString nm (255 :: (leBytes 8 0 ++ rest)) = (Except.ok [], rest) := by
  unfold loadString
  rw [pbind_ok (loadU8_cons nm 255 (leBytes 8 0 ++ rest)), if_pos rfl]
  have husz : loadUsize nm (leBytes 8 0 ++ rest) = (Except.ok 0, rest) := by
    unfold loadUsize loadScalar
    rw [pbind_ok (load_range_exact nm 8 (leBytes 8 0) rest (leBytes_length 8 0))]
    simp [ppure, leVal_leBytes 8 0 (by norm_num)]
  rw [pbind_ok husz, if_pos rfl]
  rfl

/-- Claim C7: for every string field whose decoded size is zero — whether the
first size byte is `0`, or it is the `0xFF` escape followed by a platform-width
size equal to `0` — the String Reader returns the empty string (and the rest of
the input untouched), never an error. -/
theorem claim_C7_zero_size_string_empty (nm : String) (rest : List Nat) :
    loadString nm (0 :: rest) = (Except.ok [], rest) ∧
    loadString nm (255 :: (leBytes 8 0 ++ rest)) = (Except.ok [], rest) :=
  ⟨loadString_zero nm rest, loadString_ff_zero nm rest⟩

/-! ### Claim C8 — short / long size-encoding agreement -/

/-- Claim C8: for every size value `1 ≤ s ≤ 0xFE` and every payload of `s - 1`
bytes, the short encoding (single size byte `s`, then the payload) and the long
encoding (byte `0xFF`, then a platform-width integer equal to `s`, then the
same payload) both decode successfully to byte-identical content of `s - 1`
bytes, leaving the same remaining input. -/
theorem claim_C8_short_long_agree (nm : String) (s : Nat) (payload rest : List Nat)
    (h1 : 1 ≤ s) (h2 : s ≤ 254) (hlen : payload.length = s - 1) :
    loadString nm (s :: (payload ++ rest)) = (Except.ok payload, rest) ∧
    loadString nm (255 :: (leBytes 8 s ++ (payload ++ rest))) =
      (Except.ok payload, rest) := by
  constructor
  · exact loadString_short nm s payload rest (by omega) (by omega) hlen
  · exact loadString_long nm s payload rest (by omega) (by omega) hlen

/-- Witness for C8 at `s = 2`, payload `[65]`. -/
theorem claim_C8_short_long_agree_witness :
    loadString "x" [2, 65, 9] = (Except.ok [65], [9]) ∧
    loadString "x" [255, 2, 0, 0, 0, 0, 0, 0, 0, 65, 9] = (Except.ok [65], [9]) :=
  claim_C8_short_long_agree "x" 2 [65] [9] (by decide) (by decide) (by decide)

/-! ### Claim C5 — unrecognized constant tags -/

/-- Claim C5: a constant entry whose tag byte is not one of the recognized
constant tags {Nil, Boolean, Float, Integer, ShortString, LongString} fails
with an invalid-constant-type error naming the offending tag (the tag byte has
been consumed; nothing further is read). -/
theorem claim_C5_invalid_constant_tag (nm : String) (tag : Nat) (rest : List Nat)
    (hn : tag ≠ TAG_NIL) (hb : tag ≠ TAG_BOOLEAN) (hf : tag ≠ TAG_NUMFLT)
    (hi : tag ≠ TAG_NUMINT) (hs : tag ≠ TAG_SHRSTR) (hl : tag ≠ TAG_LNGSTR) :
    loadConstant nm (tag :: rest) =
      (Except.error (ErrorKind.InvalidConstantType tag), rest) := by
  unfold loadConstant
  rw [pbind_ok (loadU8_cons nm tag rest), if_neg hn, if_neg hb, if_neg hf,
    if_neg hi, if_neg (not_or.mpr ⟨hs, hl⟩)]
  rfl

/-- Witness for C5 at tag byte `2` (not a recognized constant tag). -/
theorem claim_C5_invalid_constant_tag_witness :
    loadConstant "x" [2, 7, 7] =
      (Except.error (ErrorKind.InvalidConstantType 2), [7, 7]) :=
  claim_C5_invalid_constant_tag "x" 2 [7, 7] (by decide) (by decide) (by decide)
    (by decide) (by decide) (by decide)

/-! ### Signed counts and Claim C9 -/

/-- Little-endian two's-complement encoding of a signed value on `k` bytes. -/
def intBytes (k : Nat) (c : Int) : List Nat :=
  leBytes k ((c % ((2 : Int) ^ (8 * k))).toNat)

theorem intBytes_length (k : Nat) (c : Int) : (intBytes k c).length = k :=
  leBytes_length k _

theorem leVal_intBytes (k : Nat) (c : Int) :
    leVal (intBytes k c) = (c % ((2 : Int) ^ (8 * k))).toNat := by
  apply leVal_leBytes
  have hcast : (((2 ^ (8 * k) : Nat) : Int)) = (2 : Int) ^ (8 * k) := by push_cast; ring
  have h1 : (0 : Int) < 2 ^ (8 * k) := by positivity
  have h2 : c % 2 ^ (8 * k) < 2 ^ (8 * k) := Int.emod_lt_of_pos c h1
  have h3 : (0 : Int) ≤ c % 2 ^ (8 * k) := Int.emod_nonneg c (by positivity)
  omega

theorem loadScalar_exact (nm : String) (k : Nat) (xs rest : List Nat)
    (h : xs.length = k) :
    loadScalar nm k (xs ++ rest) = (Except.ok (leVal xs), rest) := by
  unfold loadScalar
  rw [pbind_ok (load_range_exact nm k xs rest h)]
  rfl

theorem loadI32_intBytes (nm : String) (c : Int) (rest : List Nat)
    (h1 : -(2 ^ 31) ≤ c) (h2 : c < 2 ^ 31) :
    loadI32 nm (intBytes 4 c ++ rest) = (Except.ok c, rest) := by
  unfold loadI32
  rw [pbind_ok (loadScalar_exact nm 4 (intBytes 4 c) rest (intBytes_length 4 c))]
  rw [leVal_intBytes]
  unfold ppure toSigned
  norm_num
  split <;> rename_i hc <;> omega

theorem loadSyxInt_intBytes (nm : String) (c : Int) (rest : List Nat)
    (h1 : -(2 ^ 63) ≤ c) (h2 : c < 2 ^ 63) :
    loadSyxInt nm (intBytes 8 c ++ rest) = (Except.ok c, rest) := by
  unfold loadSyxInt
  rw [pbind_ok (loadScalar_exact nm 8 (intBytes 8 c) rest (intBytes_length 8 c))]
  rw [leVal_intBytes]
  unfold ppure toSigned
  norm_num
  split <;> rename_i hc <;> omega

theorem fillUp_nil_pos (nm : String) (n i : Nat) (h : n ≠ 0) :
    fillUpvalueNames nm n i [] = pfail (ErrorKind.InvalidUpvalueIndex i) := by
  cases n with
  | zero => exact absurd rfl h
  | succ m => rfl

theorem usizeOfInt_ne_zero (c : Int) (h : c < 0) (hb : -(2 ^ 63) ≤ c) :
    usizeOfInt c ≠ 0 := by
  unfold usizeOfInt
  norm_num
  omega

theorem usizeOfInt_neg_large (c : Int) (h : c < 0) (hb : -(2 ^ 63) ≤ c) :
    ¬ usizeOfInt c < 2 ^ 63 := by
  unfold usizeOfInt
  norm_num
  omega

theorem vecReserve_ok (n : Nat) (input : List Nat) (h : n < 2 ^ 63) :
    vecReserve n input = (Except.ok (), input) := by
  unfold vecReserve
  rw [if_pos h]

theorem vecReserve_panic (n : Nat) (input : List Nat) (h : ¬ n < 2 ^ 63) :
    vecReserve n input =
      (Except.error (ErrorKind.Panic "capacity overflow"), input) := by
  unfold vecReserve
  rw [if_neg h]

/-- Claim C9 (amended): a negative signed 32-bit constant count makes the
Constant Reader read zero entries and succeed with an empty list (its `for`
range is over signed values and it performs no `reserve`).  Every other reader
casts the count `as usize` into `Vec::reserve` before its loop, so a negative
count — at least `2^63` once cast — makes the instruction, upvalue and
nested-proto readers panic with "capacity overflow" at `reserve` rather than
succeed, and likewise the debug reader on its lineinfo count (and its locvar
count); the debug reader's `reserve`-free upvalue-name pass instead runs its
loop, failing with `InvalidUpvalueIndex 0` on an empty upvalue array. -/
theorem claim_C9_negative_counts (nm : String) (c32 c64 : Int) (rest : List Nat)
    (fuel : Nat)
    (h32l : -(2 ^ 31) ≤ c32) (h32 : c32 < 0)
    (h64l : -(2 ^ 63) ≤ c64) (h64 : c64 < 0) :
    loadConstants nm (intBytes 4 c32 ++ rest) = (Except.ok [], rest) ∧
    loadCode nm (intBytes 8 c64 ++ rest) =
      (Except.error (ErrorKind.Panic "capacity overflow"), rest) ∧
    loadUpvalues nm (intBytes 8 c64 ++ rest) =
      (Except.error (ErrorKind.Panic "capacity overflow"), rest) ∧
    loadProtos nm fuel (intBytes 8 c64 ++ rest) =
      (Except.error (ErrorKind.Panic "capacity overflow"), rest) ∧
    (loadDebug nm [] (intBytes 8 c64 ++ rest)).1 =
      Except.error (ErrorKind.Panic "capacity overflow") ∧
    (loadDebug nm []
        (intBytes 8 0 ++ (intBytes 8 0 ++ (intBytes 8 c64 ++ rest)))).1 =
      Except.error (ErrorKind.InvalidUpvalueIndex 0) := by
  have h32n : c32.toNat = 0 := Int.toNat_eq_zero.mpr (le_of_lt h32)
  have hres := vecReserve_panic (usizeOfInt c64) rest
    (usizeOfInt_neg_large c64 h64 h64l)
  have hz : loadSyxInt nm (intBytes 8 0 ++ (intBytes 8 0 ++ (intBytes 8 c64 ++ rest))) =
      (Except.ok 0, intBytes 8 0 ++ (intBytes 8 c64 ++ rest)) :=
    loadSyxInt_intBytes nm 0 _ (by norm_num) (by norm_num)
  refine ⟨?_, ?_, ?_, ?_, ?_, ?_⟩
  · unfold loadConstants
    rw [pbind_ok (loadI32_intBytes nm c32 rest h32l (by omega)), h32n]
    rfl
  · unfold loadCode
    rw [pbind_ok (loadSyxInt_intBytes nm c64 rest h64l (by omega))]
    rw [pbind_err hres]
  · unfold loadUpvalues
    rw [pbind_ok (loadSyxInt_intBytes nm c64 rest h64l (by omega))]
    rw [pbind_err hres]
  · unfold loadProtos loadProtosWith
    rw [pbind_ok (loadSyxInt_intBytes nm c64 rest h64l (by omega))]
    rw [pbind_err hres]
  · unfold loadDebug
    rw [pbind_ok (loadSyxInt_intBytes nm c64 rest h64l (by omega))]
    rw [pbind_err hres]
  · unfold loadDebug
    rw [pbind_ok hz]
    rw [pbind_ok (vecReserve_ok (usizeOfInt 0) _ (by norm_num [usizeOfInt]))]
    rw [pbind_ok (rfl : loopLines nm (usizeOfInt 0) [] _ = (Except.ok [], _))]
    rw [pbind_ok (loadSyxInt_intBytes nm 0 (intBytes 8 c64 ++ rest) (by norm_num)
      (by norm_num))]
    rw [pbind_ok (vecReserve_ok (usizeOfInt 0) _ (by norm_num [usizeOfInt]))]
    rw [pbind_ok (rfl : loopLocVars nm (usizeOfInt 0) [] _ = (Except.ok [], _))]
    rw [pbind_ok (loadSyxInt_intBytes nm c64 rest h64l (by omega))]
    rw [pbind_err (by
      rw [fillUp_nil_pos nm (usizeOfInt c64) 0 (usizeOfInt_ne_zero c64 h64 h64l)]
      rfl)]

/-- Counterexample to Claim C9 as stated: a debug block whose upvalue-name
count is the negative platform integer `-1` (bytes `FF ×8`), with no upvalues
decoded, makes the debug reader fail with `InvalidUpvalueIndex 0` — its loop
runs rather than not executing. -/
theorem claim_C9_counterexample :
    loadDebug "x" []
        [0, 0, 0, 0, 0, 0, 0, 0, 0, 0, 0, 0, 0, 0, 0, 0,
         255, 255, 255, 255, 255, 255, 255, 255] =
      (Except.error (ErrorKind.InvalidUpvalueIndex 0), []) := rfl

/-- Witness for C9 (amended) at `c32 = c64 = -1`, empty remaining input. -/
theorem claim_C9_negative_counts_witness :
    loadConstants "x" (intBytes 4 (-1) ++ []) = (Except.ok [], []) ∧
    loadCode "x" (intBytes 8 (-1) ++ []) =
      (Except.error (ErrorKind.Panic "capacity overflow"), []) ∧
    loadUpvalues "x" (intBytes 8 (-1) ++ []) =
      (Except.error (ErrorKind.Panic "capacity overflow"), []) ∧
    loadProtos "x" 7 (intBytes 8 (-1) ++ []) =
      (Except.error (ErrorKind.Panic "capacity overflow"), []) ∧
    (loadDebug "x" [] (intBytes 8 (-1) ++ [])).1 =
      Except.error (ErrorKind.Panic "capacity overflow") ∧
    (loadDebug "x" []
        (intBytes 8 0 ++ (intBytes 8 0 ++ (intBytes 8 (-1) ++ [])))).1 =
      Except.error (ErrorKind.InvalidUpvalueIndex 0) :=
  claim_C9_negative_counts "x" (-1) (-1) [] 7 (by norm_num) (by norm_num)
    (by norm_num) (by norm_num)

/-! ### Claim C6 — upvalue-name back-fill bounds -/

/-- `stringsAvail nm k input` holds when `k` successive `load_string` reads
succeed on `input`. -/
def stringsAvail (nm : String) : Nat → List Nat → Bool
  | 0, _ => true
  | k + 1, input =>
    match loadString nm input with
    | (Except.ok _, rest) => stringsAvail nm k rest
    | (Except.error _, _) => false

theorem fillUp_overrun (nm : String) (d i n : Nat) (u : List Upvalue)
    (input : List Nat) (hlen : u.length = i + d) (hcnt : i + d < i + n)
    (hav : stringsAvail nm d input = true) :
    (fillUpvalueNames nm n i u input).1 =
      Except.error (ErrorKind.InvalidUpvalueIndex (i + d)) := by
  induction d generalizing i n u input with
  | zero =>
    cases n with
    | zero => omega
    | succ m =>
      have hget : u.get? i = none := by
        rw [List.get?_eq_none]
        omega
      simp only [fillUpvalueNames, hget]
      rfl
  | succ d ih =>
    cases n with
    | zero => omega
    | succ m =>
      cases hget : u.get? i with
      | none =>
        rw [List.get?_eq_none] at hget
        omega
      | some uv =>
        simp only [fillUpvalueNames, hget]
        unfold stringsAvail at hav
        cases hls : loadString nm input with
        | mk res rest =>
          cases res with
          | error e => rw [hls] at hav; simp at hav
          | ok s =>
            rw [hls] at hav
            simp only at hav
            rw [pbind_ok hls]
            have harr : i + (d + 1) = (i + 1) + d := by omega
            rw [harr]
            exact ih (i + 1) m (u.set i { uv with name := s }) rest
              (by rw [List.length_set]; omega) (by omega) hav

theorem usizeOfInt_of_nonneg (c : Int) (h0 : 0 ≤ c) (h1 : c < 2 ^ 64) :
    usizeOfInt c = c.toNat := by
  unfold usizeOfInt
  rw [Int.emod_eq_of_lt h0 h1]

/-- Claim C6: upvalue names are back-filled positionally into the array built
by the Upvalue Reader; whenever the debug block's upvalue-name count exceeds
that array's length (and the names up to the array's bound are decodable), the
decode fails with `InvalidUpvalueIndex` identifying the first out-of-range
index, namely the array's length — both for the back-fill loop itself and for
the whole debug block (here with empty lineinfo and locvar sections). -/
theorem claim_C6_upvalue_name_overrun (nm : String) (upvals : List Upvalue)
    (cnt : Nat) (input : List Nat)
    (hover : upvals.length < cnt) (hbound : cnt < 2 ^ 63)
    (hav : stringsAvail nm upvals.length input = true) :
    (fillUpvalueNames nm cnt 0 upvals input).1 =
      Except.error (ErrorKind.InvalidUpvalueIndex upvals.length) ∧
    (loadDebug nm upvals
        (intBytes 8 0 ++ (intBytes 8 0 ++ (intBytes 8 (cnt : Int) ++ input)))).1 =
      Except.error (ErrorKind.InvalidUpvalueIndex upvals.length) := by
  have hfill : ∀ inp, stringsAvail nm upvals.length inp = true →
      (fillUpvalueNames nm cnt 0 upvals inp).1 =
        Except.error (ErrorKind.InvalidUpvalueIndex upvals.length) := by
    intro inp hv
    have := fillUp_overrun nm upvals.length 0 cnt upvals inp (by omega) (by omega) hv
    simpa using this
  refine ⟨hfill input hav, ?_⟩
  unfold loadDebug
  rw [pbind_ok (loadSyxInt_intBytes nm 0 _ (by norm_num) (by norm_num))]
  rw [pbind_ok (vecReserve_ok (usizeOfInt 0) _ (by norm_num [usizeOfInt]))]
  rw [pbind_ok (rfl : loopLines nm (usizeOfInt 0) [] _ = (Except.ok [], _))]
  rw [pbind_ok (loadSyxInt_intBytes nm 0 (intBytes 8 (cnt : Int) ++ input)
    (by norm_num) (by norm_num))]
  rw [pbind_ok (vecReserve_ok (usizeOfInt 0) _ (by norm_num [usizeOfInt]))]
  rw [pbind_ok (rfl : loopLocVars nm (usizeOfInt 0) [] _ = (Except.ok [], _))]
  rw [pbind_ok (loadSyxInt_intBytes nm (cnt : Int) input
    (le_trans (by norm_num) (Int.natCast_nonneg cnt)) (by exact_mod_cast hbound))]
  rw [usizeOfInt_of_nonneg (cnt : Int) (Int.natCast_nonneg cnt)
    (by exact_mod_cast lt_trans hbound (by norm_num))]
  rw [Int.toNat_natCast]
  cases hf : fillUpvalueNames nm cnt 0 upvals input with
  | mk res rest =>
    cases res with
    | error e =>
      rw [pbind_err hf]
      have := hfill input hav
      rw [hf] at this
      simpa using this
    | ok v =>
      have := hfill input hav
      rw [hf] at this
      simp at this

/-- Witness for C6: count 1, no upvalues, empty input. -/
theorem claim_C6_upvalue_name_overrun_witness :
    (fillUpvalueNames "x" 1 0 [] []).1 =
      Except.error (ErrorKind.InvalidUpvalueIndex 0) ∧
    (loadDebug "x" []
        (intBytes 8 0 ++ (intBytes 8 0 ++ (intBytes 8 ((1 : Nat) : Int) ++ [])))).1 =
      Except.error (ErrorKind.InvalidUpvalueIndex 0) := by
  have := claim_C6_upvalue_name_overrun "x" [] 1 [] (by decide) (by norm_num) rfl
  simpa using this

/-! ### Claim C10 — UTF-8 validation of source names -/

/-- A dump whose root function carries one nested function whose source-name
field decodes to the single byte `0xFF` — not valid UTF-8. -/
def exDumpBadNested : List Nat :=
  headerBytes ++ [0] ++
  ([0] ++ intBytes 8 0 ++ intBytes 8 0 ++ [0, 0, 2] ++
   intBytes 8 0 ++ intBytes 4 0 ++ intBytes 8 0 ++
   intBytes 8 1 ++
   ([2, 255] ++ intBytes 8 0 ++ intBytes 8 0 ++ [0, 0, 2] ++
    intBytes 8 0 ++ intBytes 4 0 ++ intBytes 8 0 ++ intBytes 8 0 ++
    intBytes 8 0 ++ intBytes 8 0 ++ intBytes 8 0) ++
   intBytes 8 0 ++ intBytes 8 0 ++ intBytes 8 0)

set_option maxRecDepth 20000 in
/-- Claim C10: every function block — nested ones included — fails with
`InvalidSourceName` when its effective source name (the decoded bytes, or the
inherited default when they are empty) is not valid UTF-8; string constants,
by contrast, are never UTF-8-checked.  Stated as: (i) any `load_function`
invocation whose effective name fails UTF-8 validation errors with
`InvalidSourceName`; (ii) a whole dump whose nested function's name is the
invalid byte `0xFF` fails with `InvalidSourceName`; (iii) a string constant
made of the same invalid byte decodes successfully (both string tags). -/
theorem claim_C10_utf8_source_names (nm : String) (fuel : Nat)
    (default input bs r2 : List Nat) (payload rest : List Nat)
    (hls : loadString nm input = (Except.ok bs, r2))
    (hbad : utf8Valid (if bs ≠ [] then bs else default) = false)
    (hplen : payload.length ≤ 253) :
    (loadFunction nm (fuel + 1) default input).1 =
      Except.error ErrorKind.InvalidSourceName ∧
    from_u8 exDumpBadNested "x" = Except.error ErrorKind.InvalidSourceName ∧
    loadConstant nm (TAG_SHRSTR :: ((payload.length + 1) :: (payload ++ rest))) =
      (Except.ok (SyxValue.String payload), rest) ∧
    loadConstant nm (TAG_LNGSTR :: ((payload.length + 1) :: (payload ++ rest))) =
      (Except.ok (SyxValue.String payload), rest) := by
  refine ⟨?_, ?_, ?_, ?_⟩
  · unfold loadFunction
    rw [pbind_ok hls]
    rw [pbind_err (by
      show plift _ r2 = _
      unfold plift
      rw [if_neg (by rw [hbad]; exact Bool.false_ne_true)])]
  · rfl
  · unfold loadConstant
    rw [pbind_ok (loadU8_cons nm TAG_SHRSTR _), if_neg (by decide), if_neg (by decide),
      if_neg (by decide), if_neg (by decide), if_pos (Or.inl rfl)]
    rw [pbind_ok (loadString_short nm (payload.length + 1) payload rest
      (by omega) (by omega) (by omega))]
    rfl
  · unfold loadConstant
    rw [pbind_ok (loadU8_cons nm TAG_LNGSTR _), if_neg (by decide), if_neg (by decide),
      if_neg (by decide), if_neg (by decide), if_pos (Or.inr rfl)]
    rw [pbind_ok (loadString_short nm (payload.length + 1) payload rest
      (by omega) (by omega) (by omega))]
    rfl

set_option maxRecDepth 20000 in
/-- Witness for C10: the nested-style name `[0xFF]` and a string constant with
the same byte. -/
theorem claim_C10_utf8_source_names_witness :
    (loadFunction "x" 1 [] [2, 255]).1 = Except.error ErrorKind.InvalidSourceName ∧
    from_u8 exDumpBadNested "x" = Except.error ErrorKind.InvalidSourceName ∧
    loadConstant "x" (TAG_SHRSTR :: (2 :: ([255] ++ [9]))) =
      (Except.ok (SyxValue.String [255]), [9]) ∧
    loadConstant "x" (TAG_LNGSTR :: (2 :: ([255] ++ [9]))) =
      (Except.ok (SyxValue.String [255]), [9]) := by
  have := claim_C10_utf8_source_names "x" 0 [] [2, 255] [255] [] [255] [9]
    (by rfl) (by rfl) (by decide)
  simpa using this

/-! ### Header verification lemmas and Claim C4 -/

theorem check_literal_exact (nm : String) (value : List Nat) (err : String)
    (rest : List Nat) :
    check_literal nm value err (value ++ rest) = (Except.ok (), rest) := by
  simp [check_literal, load_range_exact nm value.length value rest rfl]

theorem check_size_exact (nm : String) (sz : Nat) (ty : String) (rest : List Nat) :
    check_size nm sz ty (sz :: rest) = (Except.ok (), rest) := by
  simp [check_size, loadU8_cons]

theorem assertv_true (nm : String) (val : Bool) (err : String) (input : List Nat)
    (h : val = true) : assertv nm val err input = (Except.ok (), input) := by
  simp [assertv, h]

theorem assertv_false (nm : String) (val : Bool) (err : String) (input : List Nat)
    (h : val = false) :
    assertv nm val err input =
      (Except.error (ErrorKind.InvalidVerification nm err), input) := by
  simp [assertv, h]

/-- A successful header check consumes exactly `headerBytes`. -/
theorem check_header_ok (nm : String) (rest : List Nat) :
    check_header nm (headerBytes ++ rest) = (Except.ok (), rest) := by
  unfold check_header
  simp only [headerBytes, List.append_assoc, List.cons_append, List.nil_append]
  rw [pbind_ok (check_literal_exact nm SYX_HEADER "header" _)]
  rw [pbind_ok (loadU8_cons nm SYX_VERSION _)]
  rw [pbind_ok (assertv_true nm _ "version mismatch" _ (by decide))]
  rw [pbind_ok (loadU8_cons nm SYX_FORMAT _)]
  rw [pbind_ok (assertv_true nm _ "format mismatch" _ (by decide))]
  rw [pbind_ok (check_literal_exact nm SYX_DATA "load order verification" _)]
  rw [pbind_ok (check_size_exact nm 4 "i32" _)]
  rw [pbind_ok (check_size_exact nm 8 "usize" _)]
  rw [pbind_ok (check_size_exact nm 4 "Word" _)]
  rw [pbind_ok (check_size_exact nm 8 "SyxInteger" _)]
  rw [pbind_ok (check_size_exact nm 8 "SyxNumber" _)]
  unfold loadSyxInteger loadSyxInt
  rw [pbind_ok (by
    rw [pbind_ok (loadScalar_exact nm 8 (leBytes 8 (Int.toNat SYX_INT)) _
      (leBytes_length 8 _))]
    rfl)]
  rw [pbind_ok (assertv_true nm _ "endianness mismatch" _ (by decide))]
  unfold loadNumBits
  rw [pbind_ok (loadScalar_exact nm 8 (leBytes 8 SYX_NUM_BITS) _ (leBytes_length 8 _))]
  rw [pbind_ok (assertv_true nm _ "float format mismatch" _ (by decide))]
  rfl

/-- The header up to (excluding) the integer canary. -/
def headerSizePrefix : List Nat :=
  SYX_HEADER ++ [SYX_VERSION, SYX_FORMAT] ++ SYX_DATA ++ [4, 8, 4, 8, 8]

/-- A well-formed header whose platform-width integer canary decodes to
anything other than `SYX_INT` fails the endianness check. -/
theorem check_header_bad_int_canary (nm : String) (bad rest : List Nat)
    (hlen : bad.length = 8) (hne : toSigned 64 (leVal bad) ≠ SYX_INT) :
    check_header nm (headerSizePrefix ++ (bad ++ rest)) =
      (Except.error (ErrorKind.InvalidVerification nm "endianness mismatch"), rest) := by
  unfold check_header
  simp only [headerSizePrefix, List.append_assoc, List.cons_append, List.nil_append]
  rw [pbind_ok (check_literal_exact nm SYX_HEADER "header" _)]
  rw [pbind_ok (loadU8_cons nm SYX_VERSION _)]
  rw [pbind_ok (assertv_true nm _ "version mismatch" _ (by decide))]
  rw [pbind_ok (loadU8_cons nm SYX_FORMAT _)]
  rw [pbind_ok (assertv_true nm _ "format mismatch" _ (by decide))]
  rw [pbind_ok (check_literal_exact nm SYX_DATA "load order verification" _)]
  rw [pbind_ok (check_size_exact nm 4 "i32" _)]
  rw [pbind_ok (check_size_exact nm 8 "usize" _)]
  rw [pbind_ok (check_size_exact nm 4 "Word" _)]
  rw [pbind_ok (check_size_exact nm 8 "SyxInteger" _)]
  rw [pbind_ok (check_size_exact nm 8 "SyxNumber" _)]
  unfold loadSyxInteger loadSyxInt
  rw [pbind_ok (by
    rw [pbind_ok (loadScalar_exact nm 8 bad rest hlen)]
    rfl)]
  rw [pbind_err (assertv_false nm _ "endianness mismatch" _
    (decide_eq_false hne))]

/-- Claim C4: an input whose header is present but whose platform-width integer
canary bytes decode to anything other than the expected value fails with an
`InvalidVerification` error that cites the failed check ("endianness mismatch")
and carries the dump's diagnostic name. -/
theorem claim_C4_endianness_canary (nm : String) (bad rest : List Nat)
    (hlen : bad.length = 8) (hne : toSigned 64 (leVal bad) ≠ SYX_INT) :
    from_u8 (headerSizePrefix ++ (bad ++ rest)) nm =
      Except.error (ErrorKind.InvalidVerification nm "endianness mismatch") := by
  refine from_u8_of_chunk_err _ nm _ rest ?_
  unfold loadChunk
  rw [pbind_err (check_header_bad_int_canary nm bad rest hlen hne)]

/-- Witness for C4: canary bytes all zero (which decode to `0 ≠ SYX_INT`). -/
theorem claim_C4_endianness_canary_witness :
    from_u8 (headerSizePrefix ++ ([0, 0, 0, 0, 0, 0, 0, 0] ++ [])) "dump" =
      Except.error (ErrorKind.InvalidVerification "dump" "endianness mismatch") :=
  claim_C4_endianness_canary "dump" [0, 0, 0, 0, 0, 0, 0, 0] [] (by decide) (by decide)

/-! ### Zero-count section lemmas -/

theorem loadCode_zero (nm : String) (rest : List Nat) :
    loadCode nm (intBytes 8 0 ++ rest) = (Except.ok [], rest) := by
  unfold loadCode
  rw [pbind_ok (loadSyxInt_intBytes nm 0 rest (by norm_num) (by norm_num))]
  rfl

theorem loadConstants_zero (nm : String) (rest : List Nat) :
    loadConstants nm (intBytes 4 0 ++ rest) = (Except.ok [], rest) := by
  unfold loadConstants
  rw [pbind_ok (loadI32_intBytes nm 0 rest (by norm_num) (by norm_num))]
  rfl

theorem loadUpvalues_zero (nm : String) (rest : List Nat) :
    loadUpvalues nm (intBytes 8 0 ++ rest) = (Except.ok [], rest) := by
  unfold loadUpvalues
  rw [pbind_ok (loadSyxInt_intBytes nm 0 rest (by norm_num) (by norm_num))]
  rfl

theorem loadProtosWith_zero (nm : String) (child : P Proto) (rest : List Nat) :
    loadProtosWith nm child (intBytes 8 0 ++ rest) = (Except.ok [], rest) := by
  unfold loadProtosWith
  rw [pbind_ok (loadSyxInt_intBytes nm 0 rest (by norm_num) (by norm_num))]
  rfl

theorem loadDebug_zero (nm : String) (ups : List Upvalue) (rest : List Nat) :
    loadDebug nm ups (intBytes 8 0 ++ (intBytes 8 0 ++ (intBytes 8 0 ++ rest))) =
      (Except.ok ([], [], ups), rest) := by
  unfold loadDebug
  rw [pbind_ok (loadSyxInt_intBytes nm 0 _ (by norm_num) (by norm_num))]
  rw [pbind_ok (vecReserve_ok (usizeOfInt 0) _ (by norm_num [usizeOfInt]))]
  rw [pbind_ok (rfl : loopLines nm (usizeOfInt 0) [] _ = (Except.ok [], _))]
  rw [pbind_ok (loadSyxInt_intBytes nm 0 _ (by norm_num) (by norm_num))]
  rw [pbind_ok (vecReserve_ok (usizeOfInt 0) _ (by norm_num [usizeOfInt]))]
  rw [pbind_ok (rfl : loopLocVars nm (usizeOfInt 0) [] _ = (Except.ok [], _))]
  rw [pbind_ok (loadSyxInt_intBytes nm 0 rest (by norm_num) (by norm_num))]
  rw [pbind_ok (rfl : fillUpvalueNames nm (usizeOfInt 0) 0 ups rest =
    (Except.ok ups, rest))]
  rfl

/-! ### Claim C1 — nested default source name -/

/-- A function block with empty encoded name and no instructions, constants,
upvalues, nested protos or debug records. -/
def childBlockEmptyName : List Nat :=
  [0] ++ intBytes 8 0 ++ intBytes 8 0 ++ [0, 0, 2] ++ intBytes 8 0 ++
  intBytes 4 0 ++ intBytes 8 0 ++ intBytes 8 0 ++
  intBytes 8 0 ++ intBytes 8 0 ++ intBytes 8 0

/-- The prototype `childBlockEmptyName` decodes to when the default name is
empty. -/
def childProtoEmpty : Proto := Proto.mk [] 0 0 0 false 2 [] [] [] [] [] []

theorem child_block_parse (nm : String) (f : Nat) (tail : List Nat) :
    loadFunction nm (f + 1) [] (childBlockEmptyName ++ tail) =
      (Except.ok childProtoEmpty, tail) := by
  simp only [childBlockEmptyName, List.append_assoc, List.cons_append,
    List.nil_append]
  simp only [loadFunction]
  rw [pbind_ok (loadString_zero nm _)]
  have hplift : ∀ inp : List Nat,
      plift (if utf8Valid (if ([] : List Nat) ≠ [] then [] else []) = true
             then Except.ok (if ([] : List Nat) ≠ [] then [] else [])
             else Except.error ErrorKind.InvalidSourceName) inp =
        (Except.ok ([] : List Nat), inp) := fun inp => rfl
  rw [pbind_ok (hplift _)]
  rw [pbind_ok (loadSyxInt_intBytes nm 0 _ (by norm_num) (by norm_num))]
  rw [pbind_ok (loadSyxInt_intBytes nm 0 _ (by norm_num) (by norm_num))]
  rw [pbind_ok (loadU8_cons nm 0 _)]
  rw [pbind_ok (loadU8_cons nm 0 _)]
  rw [pbind_ok (loadU8_cons nm 2 _)]
  rw [pbind_ok (loadCode_zero nm _)]
  rw [pbind_ok (loadConstants_zero nm _)]
  rw [pbind_ok (loadUpvalues_zero nm _)]
  rw [pbind_ok (loadProtosWith_zero nm _ _)]
  rw [pbind_ok (loadDebug_zero nm [] tail)]
  rfl

theorem loadFunction_succ (nm : String) (n : Nat) (source : List Nat) :
    loadFunction nm (n + 1) source =
    (pbind (loadString nm) fun loaded_source =>
     pbind (plift (let eff := if loaded_source ≠ [] then loaded_source else source
                   if utf8Valid eff then Except.ok eff
                   else Except.error ErrorKind.InvalidSourceName)) fun src =>
     pbind (loadSyxInt nm) fun linedefined =>
     pbind (loadSyxInt nm) fun lastlinedefined =>
     pbind (loadU8 nm) fun numparams =>
     pbind (loadU8 nm) fun va =>
     pbind (loadU8 nm) fun maxstacksize =>
     pbind (loadCode nm) fun code =>
     pbind (loadConstants nm) fun consts =>
     pbind (loadUpvalues nm) fun ups =>
     pbind (loadProtosWith nm (loadFunction nm n [])) fun protos =>
     pbind (loadDebug nm ups) fun dbg =>
     ppure (Proto.mk src linedefined lastlinedefined numparams (va ≠ 0) maxstacksize
       code consts ups protos dbg.1 dbg.2.1)) := rfl

theorem pbind_ok_inv {α β : Type} {p : P α} {f : α → P β} {input : List Nat}
    {b : β} {r : List Nat} (h : pbind p f input = (Except.ok b, r)) :
    ∃ a rest, p input = (Except.ok a, rest) ∧ f a rest = (Except.ok b, r) := by
  unfold pbind at h
  cases hp : p input with
  | mk res rest =>
    rw [hp] at h
    cases res with
    | ok a => exact ⟨a, rest, rfl, h⟩
    | error e => simp at h

/-- With the empty default name (which is what `load_protos` passes to every
nested block), an empty encoded source-name field yields an empty decoded
source name. -/
theorem loadFunction_empty_default_empty_name (nm : String) (fuel : Nat)
    (input r2 : List Nat) (p : Proto) (r : List Nat)
    (hls : loadString nm input = (Except.ok [], r2))
    (hpf : loadFunction nm (fuel + 1) [] input = (Except.ok p, r)) :
    p.source = [] := by
  simp only [loadFunction] at hpf
  rw [pbind_ok hls] at hpf
  have hplift : ∀ inp : List Nat,
      plift (if utf8Valid (if ([] : List Nat) ≠ [] then [] else []) = true
             then Except.ok (if ([] : List Nat) ≠ [] then [] else [])
             else Except.error ErrorKind.InvalidSourceName) inp =
        (Except.ok ([] : List Nat), inp) := fun inp => rfl
  rw [pbind_ok (hplift _)] at hpf
  obtain ⟨v1, s1, _, hpf⟩ := pbind_ok_inv hpf
  obtain ⟨v2, s2, _, hpf⟩ := pbind_ok_inv hpf
  obtain ⟨v3, s3, _, hpf⟩ := pbind_ok_inv hpf
  obtain ⟨v4, s4, _, hpf⟩ := pbind_ok_inv hpf
  obtain ⟨v5, s5, _, hpf⟩ := pbind_ok_inv hpf
  obtain ⟨v6, s6, _, hpf⟩ := pbind_ok_inv hpf
  obtain ⟨v7, s7, _, hpf⟩ := pbind_ok_inv hpf
  obtain ⟨v8, s8, _, hpf⟩ := pbind_ok_inv hpf
  obtain ⟨v9, s9, _, hpf⟩ := pbind_ok_inv hpf
  obtain ⟨v10, s10, _, hpf⟩ := pbind_ok_inv hpf
  unfold ppure at hpf
  injection hpf with h1 h2
  injection h1 with h1
  rw [← h1]
  rfl

/-- The claim's scenario dump, generalized over the root's source name: a valid
header, the discarded byte, then a root block named `nmB` with exactly one
nested function block whose own source-name field is encoded empty. -/
def mkScenarioDump (nmB : List Nat) : List Nat :=
  headerBytes ++ [0] ++
  ((nmB.length + 1) :: nmB) ++ intBytes 8 0 ++ intBytes 8 0 ++ [0, 0, 2] ++
  intBytes 8 0 ++ intBytes 4 0 ++ intBytes 8 0 ++
  intBytes 8 1 ++ childBlockEmptyName ++
  intBytes 8 0 ++ intBytes 8 0 ++ intBytes 8 0

/-- Decoding the scenario dump: the root carries `nmB`, the nested prototype
carries the empty name. -/
theorem scenario_chunk_parse (nm : String) (nmB : List Nat) (f : Nat)
    (hne : nmB ≠ []) (hlen : nmB.length ≤ 253) (hv : utf8Valid nmB = true) :
    loadChunk nm ((f + 1) + 1) (mkScenarioDump nmB) =
      (Except.ok (Proto.mk nmB 0 0 0 false 2 [] [] [] [childProtoEmpty] [] []),
       []) := by
  unfold loadChunk
  simp only [mkScenarioDump, List.append_assoc, List.cons_append, List.nil_append]
  rw [pbind_ok (check_header_ok nm _)]
  rw [pbind_ok (loadU8_cons nm 0 _)]
  rw [loadFunction_succ nm (f + 1) []]
  rw [pbind_ok (loadString_short nm (nmB.length + 1) nmB _ (by omega) (by omega)
    (by omega))]
  have hpl : ∀ inp : List Nat,
      plift (if utf8Valid (if nmB ≠ [] then nmB else []) = true
             then Except.ok (if nmB ≠ [] then nmB else [])
             else Except.error ErrorKind.InvalidSourceName) inp =
        (Except.ok nmB, inp) := by
    intro inp
    simp only [if_pos hne, if_pos hv]
    rfl
  rw [pbind_ok (hpl _)]
  rw [pbind_ok (loadSyxInt_intBytes nm 0 _ (by norm_num) (by norm_num))]
  rw [pbind_ok (loadSyxInt_intBytes nm 0 _ (by norm_num) (by norm_num))]
  rw [pbind_ok (loadU8_cons nm 0 _)]
  rw [pbind_ok (loadU8_cons nm 0 _)]
  rw [pbind_ok (loadU8_cons nm 2 _)]
  rw [pbind_ok (loadCode_zero nm _)]
  rw [pbind_ok (loadConstants_zero nm _)]
  rw [pbind_ok (loadUpvalues_zero nm _)]
  have hpr : loadProtosWith nm (loadFunction nm (f + 1) [])
      (intBytes 8 1 ++ (childBlockEmptyName ++
        (intBytes 8 0 ++ (intBytes 8 0 ++ intBytes 8 0)))) =
      (Except.ok [childProtoEmpty],
       intBytes 8 0 ++ (intBytes 8 0 ++ intBytes 8 0)) := by
    unfold loadProtosWith
    rw [pbind_ok (loadSyxInt_intBytes nm 1 _ (by norm_num) (by norm_num))]
    rw [pbind_ok (vecReserve_ok (usizeOfInt 1) _ (by norm_num [usizeOfInt]))]
    rw [(by norm_num : ((1 : Int)).toNat = 1)]
    simp only [loopProtos]
    rw [pbind_ok (child_block_parse nm f _)]
    rfl
  rw [pbind_ok hpr]
  have hdbg : loadDebug nm []
      (intBytes 8 0 ++ (intBytes 8 0 ++ intBytes 8 0)) =
      (Except.ok ([], [], []), []) := by
    have := loadDebug_zero nm [] []
    rwa [List.append_nil] at this
  rw [pbind_ok hdbg]
  rfl

/-- Claim C1 (amended): `load_protos` loads every nested function block with the
empty default name (`vec![]`), not the parent's own name; hence a nested block
whose own encoded source-name field is empty decodes to the empty source name.
Conjuncts: (i) any `load_function` call with the empty default and an empty
encoded name yields an empty source; (ii) the claim's scenario — a root named
`nmB` with one nested function whose name field is encoded empty — decodes
with the nested prototype's source empty; (iii) that empty source differs from
the root's. -/
theorem claim_C1_amended_empty_child_default (nm : String) (nmB : List Nat)
    (fuel : Nat) (input r2 : List Nat) (p : Proto) (r : List Nat)
    (hne : nmB ≠ []) (hlen : nmB.length ≤ 253) (hv : utf8Valid nmB = true) :
    (loadString nm input = (Except.ok [], r2) →
       loadFunction nm (fuel + 1) [] input = (Except.ok p, r) →
       p.source = []) ∧
    from_u8 (mkScenarioDump nmB) nm =
      Except.ok (Proto.mk nmB 0 0 0 false 2 [] [] [] [childProtoEmpty] [] []) ∧
    childProtoEmpty.source ≠ nmB := by
  refine ⟨?_, ?_, ?_⟩
  · intro h1 h2
    exact loadFunction_empty_default_empty_name nm fuel input r2 p r h1 h2
  · have hB2 : 2 ≤ (mkScenarioDump nmB).length := by
      simp [mkScenarioDump, headerBytes, childBlockEmptyName, intBytes_length,
        leBytes_length, SYX_HEADER, SYX_DATA]
    obtain ⟨L, hL⟩ : ∃ L, (mkScenarioDump nmB).length = L + 2 :=
      ⟨(mkScenarioDump nmB).length - 2, by omega⟩
    refine from_u8_of_chunk _ nm _ ?_
    rw [hL]
    rw [show (L + 2) + 1 = ((L + 1) + 1) + 1 from rfl]
    exact scenario_chunk_parse nm nmB (L + 1) hne hlen hv
  · exact Ne.symm hne

set_option maxRecDepth 40000 in
/-- Counterexample to Claim C1 as stated: the claim's own scenario — a root
function named "root" with one nested function whose name field is encoded
empty — decodes successfully, and the nested prototype's source name is the
empty byte string, not the root's name. -/
theorem claim_C1_counterexample :
    from_u8 (mkScenarioDump [114, 111, 111, 116]) "x" =
      Except.ok (Proto.mk [114, 111, 111, 116] 0 0 0 false 2 [] [] []
        [childProtoEmpty] [] []) ∧
    childProtoEmpty.source ≠ [114, 111, 111, 116] := by
  constructor
  · rfl
  · decide

set_option maxRecDepth 40000 in
/-- Witness for C1 (amended), at the root name "main". -/
theorem claim_C1_amended_empty_child_default_witness :
    ((loadString "w" [0] = (Except.ok [], []) →
       loadFunction "w" 1 [] [0] = (Except.ok childProtoEmpty, []) →
       childProtoEmpty.source = []) ∧
    from_u8 (mkScenarioDump [109, 97, 105, 110]) "w" =
      Except.ok (Proto.mk [109, 97, 105, 110] 0 0 0 false 2 [] [] []
        [childProtoEmpty] [] []) ∧
    childProtoEmpty.source ≠ [109, 97, 105, 110]) :=
  claim_C1_amended_empty_child_default "w" [109, 97, 105, 110] 0 [0] [] 
    childProtoEmpty [] (by decide) (by decide) (by decide)

/-! ### Prefix / extension theory for Claims C2 and C3

The decoder is a single-pass, lookahead-free stream parser.  Three semantic
properties are proven for every loader `f`:
  - `PSfx`: on success the remaining input is a suffix of the input;
  - `PExt`: a successful run depends only on the bytes it consumed — replacing
    the unconsumed tail replays the same result;
  - `PTr`: truncating the consumed bytes of a successful run anywhere makes the
    run fail with `InvalidVerification` (the truncation error), draining the
    cursor.
`PExt`/`PTr` restrict the consumed bytes to genuine byte values (`Bytes`),
matching the Rust `Vec<u8>` input (the `List Nat` embedding is wider). -/

/-- All entries are byte values. -/
def Bytes (l : List Nat) : Prop := ∀ b ∈ l, b < 256

def PSfx {α : Type} (f : P α) : Prop :=
  ∀ input v r, f input = (Except.ok v, r) → ∃ c, input = c ++ r

def PExt {α : Type} (f : P α) : Prop :=
  ∀ c v t₀ t, Bytes c → f (c ++ t₀) = (Except.ok v, t₀) → f (c ++ t) = (Except.ok v, t)

def PTr (nm : String) {α : Type} (f : P α) : Prop :=
  ∀ c v t₀ p, Bytes c → f (c ++ t₀) = (Except.ok v, t₀) → p <+: c → p ≠ c →
    ∃ m, f p = (Except.error (ErrorKind.InvalidVerification nm m), [])

def Good (nm : String) {α : Type} (f : P α) : Prop :=
  PSfx f ∧ PExt f ∧ PTr nm f

theorem Bytes.append_left {a b : List Nat} (h : Bytes (a ++ b)) : Bytes a :=
  fun x hx => h x (List.mem_append_left b hx)

theorem Bytes.append_right {a b : List Nat} (h : Bytes (a ++ b)) : Bytes b :=
  fun x hx => h x (List.mem_append_right a hx)

theorem Bytes.of_prefix {a b : List Nat} (h : Bytes b) (hp : a <+: b) : Bytes a := by
  obtain ⟨t, rfl⟩ := hp
  exact h.append_left

/-- Splitting a prefix of an append. -/
theorem prefix_append_split {p a b : List Nat} (h : p <+: a ++ b) :
    (p <+: a ∧ p ≠ a) ∨ ∃ q, p = a ++ q ∧ q <+: b := by
  rcases le_or_lt p.length a.length with hle | hlt
  · have hpa : p <+: a := (List.isPrefix_append_of_length hle).mp h
    by_cases hpe : p = a
    · subst hpe
      exact Or.inr ⟨[], by simp, List.nil_prefix⟩
    · exact Or.inl ⟨hpa, hpe⟩
  · right
    obtain ⟨t, ht⟩ := h
    have hpt : p.take a.length = a := by
      have hc := congrArg (List.take a.length) ht
      rw [List.take_left] at hc
      rw [List.take_eq_left_iff.mpr (Or.inr hlt.le)] at hc
      exact hc
    refine ⟨p.drop a.length, ?_, ?_⟩
    · conv_lhs => rw [← List.take_append_drop a.length p]
      rw [hpt]
    · have hp2 : p = a ++ p.drop a.length := by
        conv_lhs => rw [← List.take_append_drop a.length p]
        rw [hpt]
      rw [hp2, List.append_assoc] at ht
      have := List.append_cancel_left ht
      exact ⟨t, this⟩

theorem good_ppure (nm : String) {α : Type} (a : α) : Good nm (ppure a) := by
  refine ⟨?_, ?_, ?_⟩
  · intro input v r h
    unfold ppure at h
    injection h with h1 h2
    exact ⟨[], by simp [h2]⟩
  · intro c v t₀ t hb h
    unfold ppure at h
    injection h with h1 h2
    have hc : c = [] := by
      have := congrArg List.length h2
      simpa using this
    subst hc
    injection h1 with h1
    simp [ppure, h1]
  · intro c v t₀ q hb h hq hneq
    unfold ppure at h
    injection h with h1 h2
    have hc : c = [] := by
      have := congrArg List.length h2
      simpa using this
    subst hc
    exact absurd (List.prefix_nil.mp hq) hneq

theorem good_pfail (nm : String) {α : Type} (e : ErrorKind) :
    Good nm (pfail e : P α) := by
  refine ⟨?_, ?_, ?_⟩
  · intro input v r h
    simp [pfail] at h
  · intro c v t₀ t hb h
    simp [pfail] at h
  · intro c v t₀ q hb h hq hneq
    simp [pfail] at h

theorem good_plift (nm : String) {α : Type} (e : Except ErrorKind α) :
    Good nm (plift e) := by
  cases e with
  | ok a => exact good_ppure nm a
  | error err => exact good_pfail nm err

theorem good_vecReserve (nm : String) (n : Nat) : Good nm (vecReserve n) := by
  by_cases h : n < 2 ^ 63
  · have hv : vecReserve n = ppure () := by
      funext input
      rw [vecReserve_ok n input h]
      rfl
    rw [hv]
    exact good_ppure nm ()
  · have hv : vecReserve n = pfail (ErrorKind.Panic "capacity overflow") := by
      funext input
      rw [vecReserve_panic n input h]
      rfl
    rw [hv]
    exact good_pfail nm _

/-- A successful `load_range` at rest `t₀` consumed exactly `n` bytes. -/
theorem load_range_consumed (nm : String) {n : Nat} {c t₀ : List Nat}
    {v : List Nat} (h : load_range nm n (c ++ t₀) = (Except.ok v, t₀)) :
    c.length = n ∧ v = c := by
  unfold load_range at h
  by_cases hc : ((c ++ t₀).take n).length = n
  · rw [if_pos hc] at h
    injection h with h1 h2
    injection h1 with h1
    have hlen : n ≤ c.length + t₀.length := by
      rw [List.length_take] at hc
      rw [List.length_append] at hc
      omega
    have hdrop := congrArg List.length h2
    rw [List.length_drop, List.length_append] at hdrop
    have hcn : c.length = n := by omega
    refine ⟨hcn, ?_⟩
    rw [← h1, ← hcn, List.take_left]
  · rw [if_neg hc] at h
    injection h with h1 h2
    cases h1

theorem good_load_range (nm : String) (n : Nat) : Good nm (load_range nm n) := by
  refine ⟨?_, ?_, ?_⟩
  · intro input v r h
    unfold load_range at h
    by_cases hc : (input.take n).length = n
    · rw [if_pos hc] at h
      injection h with h1 h2
      exact ⟨input.take n, by rw [← h2, List.take_append_drop]⟩
    · rw [if_neg hc] at h
      injection h with h1 h2
      cases h1
  · intro c v t₀ t hb h
    obtain ⟨hcn, hvc⟩ := load_range_consumed nm h
    rw [hvc, ← hcn]
    exact load_range_exact nm c.length c t rfl
  · intro c v t₀ q hb h hq hneq
    obtain ⟨hcn, hvc⟩ := load_range_consumed nm h
    have hql : q.length < n := by
      have h1 := hq.length_le
      have h2 : q.length ≠ c.length := fun hl =>
        hneq (hq.eq_of_length hl)
      omega
    refine ⟨"Not enough bytes: " ++ toString n, ?_⟩
    unfold load_range
    rw [if_neg (by
      rw [List.length_take]
      omega)]
    rw [List.drop_eq_nil_of_le (by omega)]

theorem good_pbind (nm : String) {α β : Type} {p : P α} {k : α → P β}
    (hp : Good nm p) (hk : ∀ a, Good nm (k a)) : Good nm (pbind p k) := by
  obtain ⟨psfx, pext, ptr⟩ := hp
  refine ⟨?_, ?_, ?_⟩
  · intro input v r h
    obtain ⟨a, r₁, hpa, hka⟩ := pbind_ok_inv h
    obtain ⟨c₁, hc1⟩ := psfx input a r₁ hpa
    obtain ⟨c₂, hc2⟩ := (hk a).1 r₁ v r hka
    exact ⟨c₁ ++ c₂, by rw [hc1, hc2, List.append_assoc]⟩
  · intro c v t₀ t hb h
    obtain ⟨a, r₁, hpa, hka⟩ := pbind_ok_inv h
    obtain ⟨c₁, hc1⟩ := psfx _ a r₁ hpa
    obtain ⟨c₂, hc2⟩ := (hk a).1 r₁ v t₀ hka
    have hc : c = c₁ ++ c₂ := by
      rw [hc2, ← List.append_assoc] at hc1
      exact List.append_cancel_right hc1
    subst hc
    rw [hc2] at hpa hka
    rw [List.append_assoc] at hpa
    have hpa' := pext c₁ a (c₂ ++ t₀) (c₂ ++ t) hb.append_left hpa
    have hka' := (hk a).2.1 c₂ v t₀ t hb.append_right hka
    rw [List.append_assoc]
    unfold pbind
    rw [hpa']
    exact hka'
  · intro c v t₀ q hb h hq hneq
    obtain ⟨a, r₁, hpa, hka⟩ := pbind_ok_inv h
    obtain ⟨c₁, hc1⟩ := psfx _ a r₁ hpa
    obtain ⟨c₂, hc2⟩ := (hk a).1 r₁ v t₀ hka
    have hc : c = c₁ ++ c₂ := by
      rw [hc2, ← List.append_assoc] at hc1
      exact List.append_cancel_right hc1
    subst hc
    rw [hc2] at hpa hka
    rw [List.append_assoc] at hpa
    rcases prefix_append_split hq with ⟨hq1, hqne⟩ | ⟨q', rfl, hq2⟩
    · obtain ⟨m, hm⟩ := ptr c₁ a (c₂ ++ t₀) q hb.append_left hpa hq1 hqne
      exact ⟨m, by unfold pbind; rw [hm]⟩
    · have hq'ne : q' ≠ c₂ := by
        rintro rfl
        exact hneq rfl
      obtain ⟨m, hm⟩ := (hk a).2.2 c₂ v t₀ q' hb.append_right hka hq2 hq'ne
      have hpq : p (c₁ ++ q') = (Except.ok a, q') :=
        pext c₁ a (c₂ ++ t₀) q' hb.append_left hpa
      exact ⟨m, by unfold pbind; rw [hpq]; exact hm⟩

/-! ### Inversion lemmas for the header components -/

theorem load_range_ok_inv (nm : String) {n : Nat} {input v r : List Nat}
    (h : load_range nm n input = (Except.ok v, r)) :
    input = v ++ r ∧ v.length = n := by
  unfold load_range at h
  by_cases hc : (input.take n).length = n
  · rw [if_pos hc] at h
    injection h with h1 h2
    injection h1 with h1
    subst h1
    subst h2
    exact ⟨(List.take_append_drop n input).symm, hc⟩
  · rw [if_neg hc] at h
    injection h with h1 h2
    cases h1

theorem load_range_err_inv (nm : String) {n : Nat} {input r : List Nat}
    {e : ErrorKind} (h : load_range nm n input = (Except.error e, r)) :
    input.length < n ∧ r = [] := by
  unfold load_range at h
  by_cases hc : (input.take n).length = n
  · rw [if_pos hc] at h
    injection h with h1 h2
    cases h1
  · rw [if_neg hc] at h
    injection h with h1 h2
    rw [List.length_take] at hc
    have hlt : input.length < n := by omega
    exact ⟨hlt, by rw [← h2, List.drop_eq_nil_of_le (le_of_lt hlt)]⟩

theorem loadU8_ok_inv (nm : String) {input r : List Nat} {b : Nat}
    (h : loadU8 nm input = (Except.ok b, r)) : input = b :: r := by
  unfold loadU8 at h
  obtain ⟨v, r₁, h1, h2⟩ := pbind_ok_inv h
  obtain ⟨hi, hl⟩ := load_range_ok_inv nm h1
  unfold ppure at h2
  injection h2 with h2a h2b
  injection h2a with h2a
  subst h2b
  cases v with
  | nil => simp at hl
  | cons x xs =>
    cases xs with
    | nil =>
      subst hi
      simp at h2a
      rw [h2a]
      rfl
    | cons y ys => simp at hl

theorem loadU8_err_inv (nm : String) {input r : List Nat} {e : ErrorKind}
    (h : loadU8 nm input = (Except.error e, r)) : input = [] ∧ r = [] := by
  unfold loadU8 pbind at h
  cases hr : load_range nm 1 input with
  | mk res rest =>
    rw [hr] at h
    cases res with
    | ok v => simp [ppure] at h
    | error e' =>
      injection h with h1 h2
      obtain ⟨hlt, hnil⟩ := load_range_err_inv nm hr
      subst h2
      exact ⟨by cases input with
        | nil => rfl
        | cons x xs => simp at hlt, hnil⟩

theorem loadScalar_ok_inv (nm : String) {k : Nat} {input r : List Nat} {v : Nat}
    (h : loadScalar nm k input = (Except.ok v, r)) :
    ∃ w, input = w ++ r ∧ w.length = k ∧ v = leVal w := by
  unfold loadScalar at h
  obtain ⟨w, r₁, h1, h2⟩ := pbind_ok_inv h
  obtain ⟨hi, hl⟩ := load_range_ok_inv nm h1
  unfold ppure at h2
  injection h2 with h2a h2b
  injection h2a with h2a
  subst h2b
  exact ⟨w, hi, hl, h2a.symm⟩

theorem loadSyxInt_ok_inv (nm : String) {input r : List Nat} {v : Int}
    (h : loadSyxInt nm input = (Except.ok v, r)) :
    ∃ w, input = w ++ r ∧ w.length = 8 ∧ v = toSigned 64 (leVal w) := by
  unfold loadSyxInt at h
  obtain ⟨n, r₁, h1, h2⟩ := pbind_ok_inv h
  obtain ⟨w, hi, hl, hv⟩ := loadScalar_ok_inv nm h1
  unfold ppure at h2
  injection h2 with h2a h2b
  injection h2a with h2a
  subst h2b
  exact ⟨w, hi, hl, by rw [← h2a, hv]⟩

theorem assertv_ok_inv (nm : String) {val : Bool} {err : String}
    {input r : List Nat} (h : assertv nm val err input = (Except.ok (), r)) :
    r = input ∧ val = true := by
  unfold assertv at h
  cases val with
  | true =>
    injection h with h1 h2
    exact ⟨h2.symm, rfl⟩
  | false => simp at h

theorem check_literal_ok_inv (nm : String) {value : List Nat} {err : String}
    {input r : List Nat} (h : check_literal nm value err input = (Except.ok (), r)) :
    input = value ++ r ∨ (r = [] ∧ input.length < value.length) := by
  unfold check_literal at h
  cases hr : load_range nm value.length input with
  | mk res rest =>
    rw [hr] at h
    cases res with
    | ok lit =>
      dsimp only at h
      by_cases hl : lit = value
      · rw [if_pos hl] at h
        injection h with h1 h2
        obtain ⟨hi, _⟩ := load_range_ok_inv nm hr
        subst h2
        subst hl
        exact Or.inl hi
      · rw [if_neg hl] at h
        simp at h
    | error e =>
      dsimp only at h
      injection h with h1 h2
      obtain ⟨hlt, hnil⟩ := load_range_err_inv nm hr
      subst h2
      exact Or.inr ⟨hnil, hlt⟩

theorem check_size_ok_inv (nm : String) {sz : Nat} {ty : String}
    {input r : List Nat} (h : check_size nm sz ty input = (Except.ok (), r)) :
    input = sz :: r ∨ (input = [] ∧ r = []) := by
  unfold check_size at h
  cases hr : loadU8 nm input with
  | mk res rest =>
    rw [hr] at h
    cases res with
    | ok b =>
      dsimp only at h
      by_cases hb : b = sz
      · rw [if_pos hb] at h
        injection h with h1 h2
        subst h2
        subst hb
        exact Or.inl (loadU8_ok_inv nm hr)
      · rw [if_neg hb] at h
        simp at h
    | error e =>
      dsimp only at h
      injection h with h1 h2
      subst h2
      exact Or.inr (loadU8_err_inv nm hr)

theorem check_size_nil (nm : String) (sz : Nat) (ty : String) :
    check_size nm sz ty [] = (Except.ok (), []) := rfl

theorem loadSyxInt_nil (nm : String) :
    loadSyxInt nm [] = (Except.error
      (ErrorKind.InvalidVerification nm "Not enough bytes: 8"), []) := rfl

theorem ppure_ok_inv {α : Type} {a v : α} {input r : List Nat}
    (h : ppure a input = (Except.ok v, r)) : v = a ∧ r = input := by
  unfold ppure at h
  injection h with h1 h2
  injection h1 with h1
  exact ⟨h1.symm, h2.symm⟩

/-- Completeness of `check_header`: a successful run consumed a well-formed
header: the fixed prefix, then 8 canary bytes decoding to `SYX_INT`, then 8
canary bytes with the float pattern. -/
theorem check_header_complete (nm : String) {input r : List Nat}
    (h0 : check_header nm input = (Except.ok (), r)) :
    ∃ v1 v2, input = headerSizePrefix ++ (v1 ++ (v2 ++ r)) ∧ v1.length = 8 ∧
      v2.length = 8 ∧ toSigned 64 (leVal v1) = SYX_INT ∧
      leVal v2 = SYX_NUM_BITS := by
  unfold check_header at h0
  obtain ⟨u1, r1, hs1, h1⟩ := pbind_ok_inv h0
  rcases (check_literal_ok_inv nm hs1).symm with ⟨hr1, _⟩ | hg1
  · -- header literal swallowed exhaustion: the version read refutes success
    subst hr1
    obtain ⟨bt, r2, hs2, _⟩ := pbind_ok_inv h1
    rw [loadU8_nil] at hs2
    simp at hs2
  obtain ⟨bt, r2, hs2, h2⟩ := pbind_ok_inv h1
  have hg2 := loadU8_ok_inv nm hs2
  obtain ⟨u2, r3, hs3, h3⟩ := pbind_ok_inv h2
  obtain ⟨hr3, hbt⟩ := assertv_ok_inv nm hs3
  have hbt' : bt = SYX_VERSION := of_decide_eq_true hbt
  obtain ⟨bt2, r4, hs4, h4⟩ := pbind_ok_inv h3
  have hg4 := loadU8_ok_inv nm hs4
  obtain ⟨u3, r5, hs5, h5⟩ := pbind_ok_inv h4
  obtain ⟨hr5, hbt2⟩ := assertv_ok_inv nm hs5
  have hbt2' : bt2 = SYX_FORMAT := of_decide_eq_true hbt2
  obtain ⟨u4, r6, hs6, h6⟩ := pbind_ok_inv h5
  rcases (check_literal_ok_inv nm hs6).symm with ⟨hr6, _⟩ | hg6
  · -- data literal swallowed exhaustion: later canary read refutes success
    subst hr6
    obtain ⟨w0, q0, hw0, h6'⟩ := pbind_ok_inv h6
    rw [check_size_nil] at hw0
    injection hw0 with hw0a hw0b
    rw [← hw0b] at h6'
    have h6 := h6'
    clear h6'
    obtain ⟨w1, q1, hw1, h6'⟩ := pbind_ok_inv h6
    rw [check_size_nil] at hw1
    injection hw1 with hw1a hw1b
    rw [← hw1b] at h6'
    have h6 := h6'
    clear h6'
    obtain ⟨w2, q2, hw2, h6'⟩ := pbind_ok_inv h6
    rw [check_size_nil] at hw2
    injection hw2 with hw2a hw2b
    rw [← hw2b] at h6'
    have h6 := h6'
    clear h6'
    obtain ⟨w3, q3, hw3, h6'⟩ := pbind_ok_inv h6
    rw [check_size_nil] at hw3
    injection hw3 with hw3a hw3b
    rw [← hw3b] at h6'
    have h6 := h6'
    clear h6'
    obtain ⟨w4, q4, hw4, h6'⟩ := pbind_ok_inv h6
    rw [check_size_nil] at hw4
    injection hw4 with hw4a hw4b
    rw [← hw4b] at h6'
    have h6 := h6'
    clear h6'
    obtain ⟨iz, qz, hwz, _⟩ := pbind_ok_inv h6
    unfold loadSyxInteger at hwz
    rw [loadSyxInt_nil] at hwz
    simp at hwz
  obtain ⟨u5, r7, hs7, h7⟩ := pbind_ok_inv h6
  rcases (check_size_ok_inv nm hs7).symm with ⟨hr7, hr7b⟩ | hg7
  · subst hr7
    subst hr7b
    obtain ⟨w0, q0, hw0, h7'⟩ := pbind_ok_inv h7
    rw [check_size_nil] at hw0
    injection hw0 with hw0a hw0b
    rw [← hw0b] at h7'
    have h7 := h7'
    clear h7'
    obtain ⟨w1, q1, hw1, h7'⟩ := pbind_ok_inv h7
    rw [check_size_nil] at hw1
    injection hw1 with hw1a hw1b
    rw [← hw1b] at h7'
    have h7 := h7'
    clear h7'
    obtain ⟨w2, q2, hw2, h7'⟩ := pbind_ok_inv h7
    rw [check_size_nil] at hw2
    injection hw2 with hw2a hw2b
    rw [← hw2b] at h7'
    have h7 := h7'
    clear h7'
    obtain ⟨w3, q3, hw3, h7'⟩ := pbind_ok_inv h7
    rw [check_size_nil] at hw3
    injection hw3 with hw3a hw3b
    rw [← hw3b] at h7'
    have h7 := h7'
    clear h7'
    obtain ⟨iz, qz, hwz, _⟩ := pbind_ok_inv h7
    unfold loadSyxInteger at hwz
    rw [loadSyxInt_nil] at hwz
    simp at hwz
  obtain ⟨u6, r8, hs8, h8⟩ := pbind_ok_inv h7
  rcases (check_size_ok_inv nm hs8).symm with ⟨hr8, hr8b⟩ | hg8
  · subst hr8
    subst hr8b
    obtain ⟨w0, q0, hw0, h8'⟩ := pbind_ok_inv h8
    rw [check_size_nil] at hw0
    injection hw0 with hw0a hw0b
    rw [← hw0b] at h8'
    have h8 := h8'
    clear h8'
    obtain ⟨w1, q1, hw1, h8'⟩ := pbind_ok_inv h8
    rw [check_size_nil] at hw1
    injection hw1 with hw1a hw1b
    rw [← hw1b] at h8'
    have h8 := h8'
    clear h8'
    obtain ⟨w2, q2, hw2, h8'⟩ := pbind_ok_inv h8
    rw [check_size_nil] at hw2
    injection hw2 with hw2a hw2b
    rw [← hw2b] at h8'
    have h8 := h8'
    clear h8'
    obtain ⟨iz, qz, hwz, _⟩ := pbind_ok_inv h8
    unfold loadSyxInteger at hwz
    rw [loadSyxInt_nil] at hwz
    simp at hwz
  obtain ⟨u7, r9, hs9, h9⟩ := pbind_ok_inv h8
  rcases (check_size_ok_inv nm hs9).symm with ⟨hr9, hr9b⟩ | hg9
  · subst hr9
    subst hr9b
    obtain ⟨w0, q0, hw0, h9'⟩ := pbind_ok_inv h9
    rw [check_size_nil] at hw0
    injection hw0 with hw0a hw0b
    rw [← hw0b] at h9'
    have h9 := h9'
    clear h9'
    obtain ⟨w1, q1, hw1, h9'⟩ := pbind_ok_inv h9
    rw [check_size_nil] at hw1
    injection hw1 with hw1a hw1b
    rw [← hw1b] at h9'
    have h9 := h9'
    clear h9'
    obtain ⟨iz, qz, hwz, _⟩ := pbind_ok_inv h9
    unfold loadSyxInteger at hwz
    rw [loadSyxInt_nil] at hwz
    simp at hwz
  obtain ⟨u8, r10, hs10, h10⟩ := pbind_ok_inv h9
  rcases (check_size_ok_inv nm hs10).symm with ⟨hr10, hr10b⟩ | hg10
  · subst hr10
    subst hr10b
    obtain ⟨w0, q0, hw0, h10'⟩ := pbind_ok_inv h10
    rw [check_size_nil] at hw0
    injection hw0 with hw0a hw0b
    rw [← hw0b] at h10'
    have h10 := h10'
    clear h10'
    obtain ⟨iz, qz, hwz, _⟩ := pbind_ok_inv h10
    unfold loadSyxInteger at hwz
    rw [loadSyxInt_nil] at hwz
    simp at hwz
  obtain ⟨u9, r11, hs11, h11⟩ := pbind_ok_inv h10
  rcases (check_size_ok_inv nm hs11).symm with ⟨hr11, hr11b⟩ | hg11
  · subst hr11
    subst hr11b
    obtain ⟨iz, qz, hwz, _⟩ := pbind_ok_inv h11
    unfold loadSyxInteger at hwz
    rw [loadSyxInt_nil] at hwz
    simp at hwz
  obtain ⟨i1, r12, hs12, h12⟩ := pbind_ok_inv h11
  obtain ⟨v1, hg12, hv1l, hv1⟩ := loadSyxInt_ok_inv nm hs12
  obtain ⟨u10, r13, hs13, h13⟩ := pbind_ok_inv h12
  obtain ⟨hr13, hint⟩ := assertv_ok_inv nm hs13
  have hint' : i1 = SYX_INT := of_decide_eq_true hint
  obtain ⟨f1, r14, hs14, h14⟩ := pbind_ok_inv h13
  obtain ⟨v2, hg14, hv2l, hv2⟩ := loadScalar_ok_inv nm hs14
  obtain ⟨u11, r15, hs15, h15⟩ := pbind_ok_inv h14
  obtain ⟨hr15, hflt⟩ := assertv_ok_inv nm hs15
  have hflt' : f1 = SYX_NUM_BITS := of_decide_eq_true hflt
  obtain ⟨_, hrr⟩ := ppure_ok_inv h15
  refine ⟨v1, v2, ?_, hv1l, hv2l, ?_, ?_⟩
  · rw [hg1, hg2, hbt', ← hr3, hg4, hbt2', ← hr5, hg6, hg7, hg8, hg9, hg10,
      hg11, hg12, ← hr13, hg14, ← hr15, ← hrr]
    simp [headerSizePrefix, List.append_assoc]
  · rw [← hv1, hint']
  · rw [← hv2, hflt']

theorem leVal_lt_of_bytes {v : List Nat} (hb : Bytes v) :
    leVal v < 2 ^ (8 * v.length) := by
  induction v with
  | nil => simp [leVal]
  | cons x xs ih =>
    have hx : x < 256 := hb x (List.mem_cons_self x xs)
    have hxs : Bytes xs := fun b hb' => hb b (List.mem_cons_of_mem x hb')
    have := ih hxs
    simp only [leVal, List.foldr_cons] at *
    have h2 : 2 ^ (8 * (x :: xs).length) = 2 ^ (8 * xs.length) * 256 := by
      simp [List.length_cons]
      ring
    rw [h2]
    omega

theorem leBytes_leVal {v : List Nat} (hb : Bytes v) :
    leBytes v.length (leVal v) = v := by
  induction v with
  | nil => rfl
  | cons x xs ih =>
    have hx : x < 256 := hb x (List.mem_cons_self x xs)
    have hxs : Bytes xs := fun b hb' => hb b (List.mem_cons_of_mem x hb')
    simp only [List.length_cons, leBytes, leVal, List.foldr_cons]
    congr 1
    · omega
    · rw [show (x + 256 * List.foldr (fun b acc => b + 256 * acc) 0 xs) / 256 =
          List.foldr (fun b acc => b + 256 * acc) 0 xs by omega]
      have := ih hxs
      simp only [leVal] at this
      exact this

/-- Bytes decoding to the integer canary are exactly its encoding. -/
theorem int_canary_unique {v : List Nat} (hb : Bytes v) (hl : v.length = 8)
    (hv : toSigned 64 (leVal v) = SYX_INT) :
    v = leBytes 8 (Int.toNat SYX_INT) := by
  have hlt : leVal v < 2 ^ 64 := by
    have := leVal_lt_of_bytes hb
    rw [hl] at this
    exact this
  have hval : leVal v = 22136 := by
    unfold toSigned SYX_INT at hv
    norm_num at hv hlt ⊢
    split at hv <;> omega
  have := leBytes_leVal hb
  rw [hl, hval] at this
  rw [← this]
  decide

/-- Bytes decoding to the float canary pattern are exactly its encoding. -/
theorem num_canary_unique {v : List Nat} (hb : Bytes v) (hl : v.length = 8)
    (hv : leVal v = SYX_NUM_BITS) :
    v = leBytes 8 SYX_NUM_BITS := by
  have := leBytes_leVal hb
  rw [hl, hv] at this
  exact this.symm

/-- On byte input, a successful header check consumed exactly `headerBytes`. -/
theorem check_header_consumed (nm : String) {c t₀ : List Nat}
    (hb : Bytes c) (h : check_header nm (c ++ t₀) = (Except.ok (), t₀)) :
    c = headerBytes := by
  obtain ⟨v1, v2, heq, hv1l, hv2l, hv1, hv2⟩ := check_header_complete nm h
  have hc : c = headerSizePrefix ++ (v1 ++ v2) := by
    rw [show headerSizePrefix ++ (v1 ++ (v2 ++ t₀)) =
        (headerSizePrefix ++ (v1 ++ v2)) ++ t₀ by simp [List.append_assoc]] at heq
    exact List.append_cancel_right heq
  subst hc
  have hbv := hb.append_right
  have hb1 : Bytes v1 := hbv.append_left
  have hb2 : Bytes v2 := hbv.append_right
  rw [int_canary_unique hb1 hv1l hv1, num_canary_unique hb2 hv2l hv2]
  simp [headerBytes, headerSizePrefix, List.append_assoc]

/-- Every strict prefix of `headerBytes` fails the header check with an
`InvalidVerification` error and a drained cursor. -/
theorem check_header_prefix_err (nm : String) {q : List Nat}
    (hq : q <+: headerBytes) (hne : q ≠ headerBytes) :
    ∃ m, check_header nm q =
      (Except.error (ErrorKind.InvalidVerification nm m), []) := by
  have hqt : q = headerBytes.take q.length := List.prefix_iff_eq_take.mp hq
  have hql : q.length < 33 := by
    have h1 := hq.length_le
    have h2 : headerBytes.length = 33 := by rfl
    rw [h2] at h1
    rcases Nat.lt_or_ge q.length 33 with h | h
    · exact h
    · exact absurd (hq.eq_of_length (by omega)) hne
  interval_cases h : q.length <;> rw [hqt] <;> exact ⟨_, rfl⟩

theorem good_check_header (nm : String) : Good nm (check_header nm) := by
  refine ⟨?_, ?_, ?_⟩
  · intro input v r h
    cases v
    obtain ⟨v1, v2, heq, _, _, _, _⟩ := check_header_complete nm h
    exact ⟨headerSizePrefix ++ (v1 ++ v2), by rw [heq]; simp [List.append_assoc]⟩
  · intro c v t₀ t hb h
    cases v
    rw [check_header_consumed nm hb h]
    exact check_header_ok nm t
  · intro c v t₀ q hb h hq hneq
    cases v
    have hc := check_header_consumed nm hb h
    subst hc
    exact check_header_prefix_err nm hq hneq

/-! ### `Good` for every loader -/

theorem good_loadU8 (nm : String) : Good nm (loadU8 nm) := by
  unfold loadU8
  exact good_pbind nm (good_load_range nm 1) fun a => good_ppure nm _

theorem good_loadScalar (nm : String) (k : Nat) : Good nm (loadScalar nm k) := by
  unfold loadScalar
  exact good_pbind nm (good_load_range nm k) fun a => good_ppure nm _

theorem good_loadI32 (nm : String) : Good nm (loadI32 nm) := by
  unfold loadI32
  exact good_pbind nm (good_loadScalar nm 4) fun a => good_ppure nm _

theorem good_loadSyxInt (nm : String) : Good nm (loadSyxInt nm) := by
  unfold loadSyxInt
  exact good_pbind nm (good_loadScalar nm 8) fun a => good_ppure nm _

theorem good_loadUsize (nm : String) : Good nm (loadUsize nm) :=
  good_loadScalar nm 8

theorem good_loadSyxInteger (nm : String) : Good nm (loadSyxInteger nm) :=
  good_loadSyxInt nm

theorem good_loadNumBits (nm : String) : Good nm (loadNumBits nm) :=
  good_loadScalar nm 8

theorem good_loadWord (nm : String) : Good nm (loadWord nm) :=
  good_loadScalar nm 4

theorem good_loadString (nm : String) : Good nm (loadString nm) := by
  unfold loadString
  refine good_pbind nm (good_loadU8 nm) fun b => ?_
  refine good_pbind nm ?_ fun size => ?_
  · by_cases hb : b = 255
    · rw [if_pos hb]
      exact good_loadUsize nm
    · rw [if_neg hb]
      exact good_ppure nm b
  · by_cases hs : size = 0
    · rw [if_pos hs]
      exact good_ppure nm []
    · rw [if_neg hs]
      exact good_load_range nm (size - 1)

theorem good_loadConstant (nm : String) : Good nm (loadConstant nm) := by
  unfold loadConstant
  refine good_pbind nm (good_loadU8 nm) fun tag => ?_
  by_cases h0 : tag = TAG_NIL
  · rw [if_pos h0]; exact good_ppure nm _
  rw [if_neg h0]
  by_cases h1 : tag = TAG_BOOLEAN
  · rw [if_pos h1]
    exact good_pbind nm (good_loadU8 nm) fun b => good_ppure nm _
  rw [if_neg h1]
  by_cases h3 : tag = TAG_NUMFLT
  · rw [if_pos h3]
    exact good_pbind nm (good_loadNumBits nm) fun n => good_ppure nm _
  rw [if_neg h3]
  by_cases h19 : tag = TAG_NUMINT
  · rw [if_pos h19]
    exact good_pbind nm (good_loadSyxInteger nm) fun i => good_ppure nm _
  rw [if_neg h19]
  by_cases hstr : tag = TAG_SHRSTR ∨ tag = TAG_LNGSTR
  · rw [if_pos hstr]
    exact good_pbind nm (good_loadString nm) fun s => good_ppure nm _
  · rw [if_neg hstr]
    exact good_pfail nm _

theorem good_loopConstants (nm : String) (n : Nat) (acc : List SyxValue) :
    Good nm (loopConstants nm n acc) := by
  induction n generalizing acc with
  | zero => exact good_ppure nm acc
  | succ n ih =>
    exact good_pbind nm (good_loadConstant nm) fun v => ih _

theorem good_loadConstants (nm : String) : Good nm (loadConstants nm) := by
  unfold loadConstants
  exact good_pbind nm (good_loadI32 nm) fun cnt => good_loopConstants nm _ _

theorem good_loopCode (nm : String) (n : Nat) (acc : List Instruction) :
    Good nm (loopCode nm n acc) := by
  induction n generalizing acc with
  | zero => exact good_ppure nm acc
  | succ n ih =>
    exact good_pbind nm (good_loadWord nm) fun w =>
      good_pbind nm (good_plift nm _) fun i => ih _

theorem good_loadCode (nm : String) : Good nm (loadCode nm) := by
  unfold loadCode
  exact good_pbind nm (good_loadSyxInt nm) fun cnt =>
    good_pbind nm (good_vecReserve nm _) fun u => good_loopCode nm _ _

theorem good_loopUpvalues (nm : String) (n : Nat) (acc : List Upvalue) :
    Good nm (loopUpvalues nm n acc) := by
  induction n generalizing acc with
  | zero => exact good_ppure nm acc
  | succ n ih =>
    exact good_pbind nm (good_loadU8 nm) fun a =>
      good_pbind nm (good_loadU8 nm) fun b => ih _

theorem good_loadUpvalues (nm : String) : Good nm (loadUpvalues nm) := by
  unfold loadUpvalues
  exact good_pbind nm (good_loadSyxInt nm) fun cnt =>
    good_pbind nm (good_vecReserve nm _) fun u => good_loopUpvalues nm _ _

theorem good_loopLines (nm : String) (n : Nat) (acc : List Int) :
    Good nm (loopLines nm n acc) := by
  induction n generalizing acc with
  | zero => exact good_ppure nm acc
  | succ n ih =>
    exact good_pbind nm (good_loadSyxInt nm) fun l => ih _

theorem good_loopLocVars (nm : String) (n : Nat) (acc : List LocVar) :
    Good nm (loopLocVars nm n acc) := by
  induction n generalizing acc with
  | zero => exact good_ppure nm acc
  | succ n ih =>
    exact good_pbind nm (good_loadString nm) fun v =>
      good_pbind nm (good_loadSyxInt nm) fun s =>
      good_pbind nm (good_loadSyxInt nm) fun e => ih _

theorem good_fillUpvalueNames (nm : String) (n i : Nat) (u : List Upvalue) :
    Good nm (fillUpvalueNames nm n i u) := by
  induction n generalizing i u with
  | zero => exact good_ppure nm u
  | succ n ih =>
    cases hget : u.get? i with
    | some uv =>
      simp only [fillUpvalueNames, hget]
      exact good_pbind nm (good_loadString nm) fun s => ih _ _
    | none =>
      simp only [fillUpvalueNames, hget]
      exact good_pfail nm _

theorem good_loadDebug (nm : String) (ups : List Upvalue) :
    Good nm (loadDebug nm ups) := by
  unfold loadDebug
  exact good_pbind nm (good_loadSyxInt nm) fun l1 =>
    good_pbind nm (good_vecReserve nm _) fun u1 =>
    good_pbind nm (good_loopLines nm _ _) fun li =>
    good_pbind nm (good_loadSyxInt nm) fun l2 =>
    good_pbind nm (good_vecReserve nm _) fun u2 =>
    good_pbind nm (good_loopLocVars nm _ _) fun lv =>
    good_pbind nm (good_loadSyxInt nm) fun l3 =>
    good_pbind nm (good_fillUpvalueNames nm _ _ _) fun u => good_ppure nm _

theorem good_loopProtos (nm : String) {child : P Proto} (hc : Good nm child)
    (n : Nat) (acc : List Proto) : Good nm (loopProtos child n acc) := by
  induction n generalizing acc with
  | zero => exact good_ppure nm acc
  | succ n ih =>
    exact good_pbind nm hc fun p => ih _

theorem good_loadProtosWith (nm : String) {child : P Proto} (hc : Good nm child) :
    Good nm (loadProtosWith nm child) := by
  unfold loadProtosWith
  exact good_pbind nm (good_loadSyxInt nm) fun cnt =>
    good_pbind nm (good_vecReserve nm _) fun u => good_loopProtos nm hc _ _

theorem good_loadFunction (nm : String) (fuel : Nat) (src : List Nat) :
    Good nm (loadFunction nm fuel src) := by
  induction fuel generalizing src with
  | zero =>
    simp only [loadFunction]
    exact good_pfail nm _
  | succ fuel ih =>
    rw [loadFunction_succ]
    exact good_pbind nm (good_loadString nm) fun ls =>
      good_pbind nm (good_plift nm _) fun s =>
      good_pbind nm (good_loadSyxInt nm) fun ld =>
      good_pbind nm (good_loadSyxInt nm) fun lld =>
      good_pbind nm (good_loadU8 nm) fun np =>
      good_pbind nm (good_loadU8 nm) fun va =>
      good_pbind nm (good_loadU8 nm) fun mss =>
      good_pbind nm (good_loadCode nm) fun code =>
      good_pbind nm (good_loadConstants nm) fun consts =>
      good_pbind nm (good_loadUpvalues nm) fun ups =>
      good_pbind nm (good_loadProtosWith nm (ih [])) fun protos =>
      good_pbind nm (good_loadDebug nm _) fun dbg => good_ppure nm _

theorem good_loadChunk (nm : String) (fuel : Nat) : Good nm (loadChunk nm fuel) := by
  unfold loadChunk
  exact good_pbind nm (good_check_header nm) fun u =>
    good_pbind nm (good_loadU8 nm) fun upv => good_loadFunction nm fuel []

/-! ### Fuel transfer: results other than the fuel marker are fuel-independent -/

theorem pbind_tail_transfer {α β : Type} {p : P α} {k₁ k₂ : α → P β}
    {input : List Nat} {out : Except ErrorKind β × List Nat}
    (h : pbind p k₁ input = out)
    (hk : ∀ a r, p input = (Except.ok a, r) → k₁ a r = out → k₂ a r = out) :
    pbind p k₂ input = out := by
  unfold pbind at h ⊢
  cases hp : p input with
  | mk res rest =>
    rw [hp] at h
    cases res with
    | error e => exact h
    | ok a => exact hk a rest hp h

theorem pbind_head_transfer {α β : Type} {p₁ p₂ : P α} {k : α → P β}
    {input : List Nat} {out : Except ErrorKind β × List Nat}
    (h : pbind p₁ k input = out) (hnd : out.1 ≠ Except.error ErrorKind.Depth)
    (hp : ∀ o, p₁ input = o → o.1 ≠ Except.error ErrorKind.Depth →
      p₂ input = o) :
    pbind p₂ k input = out := by
  unfold pbind at h ⊢
  cases hp1 : p₁ input with
  | mk res rest =>
    rw [hp1] at h
    cases res with
    | error e =>
      have hne : e ≠ ErrorKind.Depth := by
        intro he
        subst he
        rw [← h] at hnd
        exact hnd rfl
      rw [hp (Except.error e, rest) hp1 (by simpa using hne)]
      exact h
    | ok a =>
      rw [hp (Except.ok a, rest) hp1 (by simp)]
      exact h

theorem loopProtos_transfer {child₁ child₂ : P Proto}
    (hc : ∀ input o, child₁ input = o →
      o.1 ≠ Except.error ErrorKind.Depth → child₂ input = o) :
    ∀ (n : Nat) (acc : List Proto) (input : List Nat)
      (out : Except ErrorKind (List Proto) × List Nat),
      loopProtos child₁ n acc input = out →
      out.1 ≠ Except.error ErrorKind.Depth →
      loopProtos child₂ n acc input = out := by
  intro n
  induction n with
  | zero => intro acc input out h _; exact h
  | succ n ih =>
    intro acc input out h hnd
    simp only [loopProtos] at h ⊢
    exact pbind_head_transfer
      (pbind_tail_transfer h fun a r hpr h1 => ih _ _ _ h1 hnd) hnd (hc input)

theorem loadProtosWith_transfer (nm : String) {child₁ child₂ : P Proto}
    (hc : ∀ input o, child₁ input = o →
      o.1 ≠ Except.error ErrorKind.Depth → child₂ input = o) :
    ∀ (input : List Nat) (out : Except ErrorKind (List Proto) × List Nat),
      loadProtosWith nm child₁ input = out →
      out.1 ≠ Except.error ErrorKind.Depth →
      loadProtosWith nm child₂ input = out := by
  intro input out h hnd
  unfold loadProtosWith at h ⊢
  exact pbind_tail_transfer h fun cnt r hpr h1 =>
    pbind_tail_transfer h1 fun u r2 hpr2 h2 =>
      loopProtos_transfer hc _ _ _ _ h2 hnd

/-- A result of `load_function` other than the fuel marker is preserved when
the fuel is raised. -/
theorem loadFunction_fuel_le (nm : String) :
    ∀ (f g : Nat) (src input : List Nat) (out : Except ErrorKind Proto × List Nat),
      f ≤ g → loadFunction nm f src input = out →
      out.1 ≠ Except.error ErrorKind.Depth → loadFunction nm g src input = out := by
  intro f
  induction f with
  | zero =>
    intro g src input out _ h hnd
    simp only [loadFunction, pfail] at h
    rw [← h] at hnd
    simp at hnd
  | succ f ih =>
    intro g src input out hle h hnd
    cases g with
    | zero => omega
    | succ g =>
      have hle' : f ≤ g := by omega
      rw [loadFunction_succ] at h ⊢
      refine pbind_tail_transfer h fun a1 r1 hp1 h1 => ?_
      refine pbind_tail_transfer h1 fun a2 r2 hp2 h2 => ?_
      refine pbind_tail_transfer h2 fun a3 r3 hp3 h3 => ?_
      refine pbind_tail_transfer h3 fun a4 r4 hp4 h4 => ?_
      refine pbind_tail_transfer h4 fun a5 r5 hp5 h5 => ?_
      refine pbind_tail_transfer h5 fun a6 r6 hp6 h6 => ?_
      refine pbind_tail_transfer h6 fun a7 r7 hp7 h7 => ?_
      refine pbind_tail_transfer h7 fun a8 r8 hp8 h8 => ?_
      refine pbind_tail_transfer h8 fun a9 r9 hp9 h9 => ?_
      refine pbind_tail_transfer h9 fun a10 r10 hp10 h10 => ?_
      exact pbind_head_transfer h10 hnd
        (loadProtosWith_transfer nm
          (fun inp o ho hndo => ih g [] inp o hle' ho hndo) r10)

theorem loadChunk_fuel_le (nm : String) (f g : Nat) (input : List Nat)
    (out : Except ErrorKind Proto × List Nat) (hle : f ≤ g)
    (h : loadChunk nm f input = out)
    (hnd : out.1 ≠ Except.error ErrorKind.Depth) : loadChunk nm g input = out := by
  unfold loadChunk at h ⊢
  refine pbind_tail_transfer h fun a r hp h1 => ?_
  refine pbind_tail_transfer h1 fun a2 r2 hp2 h2 => ?_
  exact loadFunction_fuel_le nm f g [] r2 out hle h2 hnd

/-! ### The fuel marker is unreachable when the fuel exceeds the input length
(every nesting level first consumes the size byte of its name string). -/

/-- Never produces the fuel marker. -/
def ND {α : Type} (f : P α) : Prop :=
  ∀ input, (f input).1 ≠ Except.error ErrorKind.Depth

theorem nd_pbind {α β : Type} {p : P α} {k : α → P β} (hp : ND p)
    (hk : ∀ a, ND (k a)) : ND (pbind p k) := by
  intro input
  unfold pbind
  cases hr : p input with
  | mk res rest =>
    cases res with
    | error e =>
      have := hp input
      rw [hr] at this
      simpa using this
    | ok a => exact hk a rest

theorem nd_ppure {α : Type} (a : α) : ND (ppure a) := by
  intro input
  simp [ppure]

theorem nd_pfail {α : Type} {e : ErrorKind} (he : e ≠ ErrorKind.Depth) :
    ND (pfail e : P α) := by
  intro input
  simpa [pfail] using he

theorem nd_plift {α : Type} {e : Except ErrorKind α}
    (he : e ≠ Except.error ErrorKind.Depth) : ND (plift e) := by
  intro input
  simpa [plift] using he

theorem nd_vecReserve (n : Nat) : ND (vecReserve n) := by
  intro input
  unfold vecReserve
  split <;> simp

theorem nd_load_range (nm : String) (n : Nat) : ND (load_range nm n) := by
  intro input
  unfold load_range
  by_cases hc : (input.take n).length = n
  · rw [if_pos hc]
    simp
  · rw [if_neg hc]
    simp

theorem nd_loadU8 (nm : String) : ND (loadU8 nm) :=
  nd_pbind (nd_load_range nm 1) fun a => nd_ppure _

theorem nd_loadScalar (nm : String) (k : Nat) : ND (loadScalar nm k) :=
  nd_pbind (nd_load_range nm k) fun a => nd_ppure _

theorem nd_loadI32 (nm : String) : ND (loadI32 nm) :=
  nd_pbind (nd_loadScalar nm 4) fun a => nd_ppure _

theorem nd_loadSyxInt (nm : String) : ND (loadSyxInt nm) :=
  nd_pbind (nd_loadScalar nm 8) fun a => nd_ppure _

theorem nd_loadString (nm : String) : ND (loadString nm) := by
  unfold loadString
  refine nd_pbind (nd_loadU8 nm) fun b => nd_pbind ?_ fun size => ?_
  · split
    · exact nd_loadScalar nm 8
    · exact nd_ppure b
  · split
    · exact nd_ppure []
    · exact nd_load_range nm _

theorem nd_loadConstant (nm : String) : ND (loadConstant nm) := by
  unfold loadConstant
  refine nd_pbind (nd_loadU8 nm) fun tag => ?_
  split
  · exact nd_ppure _
  split
  · exact nd_pbind (nd_loadU8 nm) fun b => nd_ppure _
  split
  · exact nd_pbind (nd_loadScalar nm 8) fun n => nd_ppure _
  split
  · exact nd_pbind (nd_loadSyxInt nm) fun i => nd_ppure _
  split
  · exact nd_pbind (nd_loadString nm) fun s => nd_ppure _
  · exact nd_pfail (by simp)

theorem nd_loopConstants (nm : String) (n : Nat) (acc : List SyxValue) :
    ND (loopConstants nm n acc) := by
  induction n generalizing acc with
  | zero => exact nd_ppure acc
  | succ n ih => exact nd_pbind (nd_loadConstant nm) fun v => ih _

theorem nd_loadConstants (nm : String) : ND (loadConstants nm) :=
  nd_pbind (nd_loadI32 nm) fun cnt => nd_loopConstants nm _ _

theorem nd_loopCode (nm : String) (n : Nat) (acc : List Instruction) :
    ND (loopCode nm n acc) := by
  induction n generalizing acc with
  | zero => exact nd_ppure acc
  | succ n ih =>
    exact nd_pbind (nd_loadScalar nm 4) fun w =>
      nd_pbind (nd_plift (by simp [instruction_try_from])) fun i => ih _

theorem nd_loadCode (nm : String) : ND (loadCode nm) :=
  nd_pbind (nd_loadSyxInt nm) fun cnt =>
    nd_pbind (nd_vecReserve _) fun u => nd_loopCode nm _ _

theorem nd_loopUpvalues (nm : String) (n : Nat) (acc : List Upvalue) :
    ND (loopUpvalues nm n acc) := by
  induction n generalizing acc with
  | zero => exact nd_ppure acc
  | succ n ih =>
    exact nd_pbind (nd_loadU8 nm) fun a => nd_pbind (nd_loadU8 nm) fun b => ih _

theorem nd_loadUpvalues (nm : String) : ND (loadUpvalues nm) :=
  nd_pbind (nd_loadSyxInt nm) fun cnt =>
    nd_pbind (nd_vecReserve _) fun u => nd_loopUpvalues nm _ _

theorem nd_loopLines (nm : String) (n : Nat) (acc : List Int) :
    ND (loopLines nm n acc) := by
  induction n generalizing acc with
  | zero => exact nd_ppure acc
  | succ n ih => exact nd_pbind (nd_loadSyxInt nm) fun l => ih _

theorem nd_loopLocVars (nm : String) (n : Nat) (acc : List LocVar) :
    ND (loopLocVars nm n acc) := by
  induction n generalizing acc with
  | zero => exact nd_ppure acc
  | succ n ih =>
    exact nd_pbind (nd_loadString nm) fun v =>
      nd_pbind (nd_loadSyxInt nm) fun s =>
      nd_pbind (nd_loadSyxInt nm) fun e => ih _

theorem nd_fillUpvalueNames (nm : String) (n i : Nat) (u : List Upvalue) :
    ND (fillUpvalueNames nm n i u) := by
  induction n generalizing i u with
  | zero => exact nd_ppure u
  | succ n ih =>
    cases hget : u.get? i with
    | some uv =>
      simp only [fillUpvalueNames, hget]
      exact nd_pbind (nd_loadString nm) fun s => ih _ _
    | none =>
      simp only [fillUpvalueNames, hget]
      exact nd_pfail (by simp)

theorem nd_loadDebug (nm : String) (ups : List Upvalue) : ND (loadDebug nm ups) := by
  unfold loadDebug
  exact nd_pbind (nd_loadSyxInt nm) fun l1 =>
    nd_pbind (nd_vecReserve _) fun u1 =>
    nd_pbind (nd_loopLines nm _ _) fun li =>
    nd_pbind (nd_loadSyxInt nm) fun l2 =>
    nd_pbind (nd_vecReserve _) fun u2 =>
    nd_pbind (nd_loopLocVars nm _ _) fun lv =>
    nd_pbind (nd_loadSyxInt nm) fun l3 =>
    nd_pbind (nd_fillUpvalueNames nm _ _ _) fun u => nd_ppure _

theorem rest_len_le {α : Type} {f : P α} (hs : PSfx f) {input : List Nat} {v : α}
    {r : List Nat} (h : f input = (Except.ok v, r)) : r.length ≤ input.length := by
  obtain ⟨c, hc⟩ := hs input v r h
  rw [hc]
  simp

theorem loadString_consumes (nm : String) {input s r : List Nat}
    (h : loadString nm input = (Except.ok s, r)) : r.length < input.length := by
  unfold loadString at h
  obtain ⟨b, r1, hb, h2⟩ := pbind_ok_inv h
  have hcons := loadU8_ok_inv nm hb
  obtain ⟨size, r2, hsz, h3⟩ := pbind_ok_inv h2
  have hs2 : r2.length ≤ r1.length := by
    by_cases h255 : b = 255
    · rw [if_pos h255] at hsz
      exact rest_len_le (good_loadUsize nm).1 hsz
    · rw [if_neg h255] at hsz
      obtain ⟨hv, hr⟩ := ppure_ok_inv hsz
      exact le_of_eq (by rw [hr])
  have hs3 : r.length ≤ r2.length := by
    by_cases h0 : size = 0
    · rw [if_pos h0] at h3
      obtain ⟨_, hr⟩ := ppure_ok_inv h3
      exact le_of_eq (by rw [hr])
    · rw [if_neg h0] at h3
      exact rest_len_le (good_load_range nm _).1 h3
  rw [hcons]
  simp only [List.length_cons]
  omega

theorem pbind_depth {α β : Type} {p : P α} {k : α → P β} {input : List Nat}
    (h : (pbind p k input).1 = Except.error ErrorKind.Depth) :
    (p input).1 = Except.error ErrorKind.Depth ∨
    ∃ a r, p input = (Except.ok a, r) ∧
      (k a r).1 = Except.error ErrorKind.Depth := by
  unfold pbind at h
  cases hp : p input with
  | mk res rest =>
    rw [hp] at h
    cases res with
    | error e =>
      left
      simpa using h
    | ok a => exact Or.inr ⟨a, rest, rfl, h⟩

theorem loopProtos_no_depth {child : P Proto} {F : Nat}
    (hsfx : PSfx child)
    (hc : ∀ inp : List Nat, inp.length < F →
      (child inp).1 ≠ Except.error ErrorKind.Depth) :
    ∀ (n : Nat) (acc : List Proto) (inp : List Nat), inp.length < F →
      (loopProtos child n acc inp).1 ≠ Except.error ErrorKind.Depth := by
  intro n
  induction n with
  | zero =>
    intro acc inp hlen
    exact nd_ppure acc inp
  | succ n ih =>
    intro acc inp hlen hD
    simp only [loopProtos] at hD
    rcases pbind_depth hD with hD1 | ⟨a, r, hok, hD2⟩
    · exact hc inp hlen hD1
    · exact ih _ r (lt_of_le_of_lt (rest_len_le hsfx hok) hlen) hD2

/-- With fuel exceeding the input length, `load_function` never reports fuel
exhaustion: each nesting level consumes at least one byte before recursing. -/
theorem loadFunction_no_depth (nm : String) :
    ∀ (fuel : Nat) (src input : List Nat), input.length < fuel →
      (loadFunction nm fuel src input).1 ≠ Except.error ErrorKind.Depth := by
  intro fuel
  induction fuel with
  | zero =>
    intro src input hlen
    omega
  | succ f ih =>
    intro src input hlen hD
    rw [loadFunction_succ] at hD
    rcases pbind_depth hD with hD1 | ⟨s1, r1, ho1, hD⟩
    · exact nd_loadString nm input hD1
    have hr1 : r1.length < input.length := loadString_consumes nm ho1
    rcases pbind_depth hD with hD1 | ⟨s2, r2, ho2, hD⟩
    · cases hp : (if utf8Valid (if s1 ≠ [] then s1 else src) = true
          then Except.ok (if s1 ≠ [] then s1 else src)
          else Except.error ErrorKind.InvalidSourceName) with
      | ok a => rw [show _ = Except.ok a from hp] at hD1; simp [plift] at hD1
      | error e =>
        rw [show _ = Except.error e from hp] at hD1
        by_cases hu : utf8Valid (if s1 ≠ [] then s1 else src) = true
        · rw [if_pos hu] at hp
          cases hp
        · rw [if_neg hu] at hp
          cases hp
          simp [plift] at hD1
    have hr2 : r2.length ≤ r1.length := by
      have := (good_plift nm (α := List Nat) _).1 _ _ _ ho2
      obtain ⟨c, hc⟩ := this
      rw [hc]; simp
    rcases pbind_depth hD with hD1 | ⟨s3, r3, ho3, hD⟩
    · exact nd_loadSyxInt nm _ hD1
    have hr3 : r3.length ≤ r2.length := rest_len_le (good_loadSyxInt nm).1 ho3
    rcases pbind_depth hD with hD1 | ⟨s4, r4, ho4, hD⟩
    · exact nd_loadSyxInt nm _ hD1
    have hr4 : r4.length ≤ r3.length := rest_len_le (good_loadSyxInt nm).1 ho4
    rcases pbind_depth hD with hD1 | ⟨s5, r5, ho5, hD⟩
    · exact nd_loadU8 nm _ hD1
    have hr5 : r5.length ≤ r4.length := rest_len_le (good_loadU8 nm).1 ho5
    rcases pbind_depth hD with hD1 | ⟨s6, r6, ho6, hD⟩
    · exact nd_loadU8 nm _ hD1
    have hr6 : r6.length ≤ r5.length := rest_len_le (good_loadU8 nm).1 ho6
    rcases pbind_depth hD with hD1 | ⟨s7, r7, ho7, hD⟩
    · exact nd_loadU8 nm _ hD1
    have hr7 : r7.length ≤ r6.length := rest_len_le (good_loadU8 nm).1 ho7
    rcases pbind_depth hD with hD1 | ⟨s8, r8, ho8, hD⟩
    · exact nd_loadCode nm _ hD1
    have hr8 : r8.length ≤ r7.length := rest_len_le (good_loadCode nm).1 ho8
    rcases pbind_depth hD with hD1 | ⟨s9, r9, ho9, hD⟩
    · exact nd_loadConstants nm _ hD1
    have hr9 : r9.length ≤ r8.length := rest_len_le (good_loadConstants nm).1 ho9
    rcases pbind_depth hD with hD1 | ⟨s10, r10, ho10, hD⟩
    · exact nd_loadUpvalues nm _ hD1
    have hr10 : r10.length ≤ r9.length := rest_len_le (good_loadUpvalues nm).1 ho10
    rcases pbind_depth hD with hD1 | ⟨s11, r11, ho11, hD⟩
    · -- the nested-prototype reader at fuel `f`
      unfold loadProtosWith at hD1
      rcases pbind_depth hD1 with hD2 | ⟨cnt, rc, hoc, hD2⟩
      · exact nd_loadSyxInt nm _ hD2
      have hrc : rc.length ≤ r10.length := rest_len_le (good_loadSyxInt nm).1 hoc
      rcases pbind_depth hD2 with hD3 | ⟨uv, rv, hov, hD3⟩
      · exact nd_vecReserve _ _ hD3
      have hrv : rv.length ≤ rc.length := rest_len_le (good_vecReserve nm _).1 hov
      have hrcf : rv.length < f := by omega
      exact loopProtos_no_depth (good_loadFunction nm f []).1
        (fun inp hl => ih [] inp hl) _ _ rv hrcf hD3
    rcases pbind_depth hD with hD1 | ⟨s12, r12, ho12, hD⟩
    · exact nd_loadDebug nm _ _ hD1
    exact nd_ppure _ _ hD

theorem loadChunk_no_depth (nm : String) (fuel : Nat) (input : List Nat)
    (hlen : input.length < fuel) :
    (loadChunk nm fuel input).1 ≠ Except.error ErrorKind.Depth := by
  intro hD
  unfold loadChunk at hD
  rcases pbind_depth hD with hD1 | ⟨u, r1, ho1, hD⟩
  · revert hD1
    have hnd : ND (check_header nm) := by
      unfold check_header
      refine nd_pbind ?_ fun bt => ?_
      · intro inp
        unfold check_literal
        cases hr : load_range nm (SYX_HEADER.length) inp with
        | mk res rest =>
          cases res with
          | ok lit =>
            dsimp only
            split <;> simp
          | error e => simp
      · refine nd_pbind (nd_loadU8 nm) fun b1 => ?_
        refine nd_pbind (by intro inp; unfold assertv; split <;> simp) fun u1 => ?_
        refine nd_pbind (nd_loadU8 nm) fun b2 => ?_
        refine nd_pbind (by intro inp; unfold assertv; split <;> simp) fun u2 => ?_
        refine nd_pbind (by
          intro inp
          unfold check_literal
          cases hr : load_range nm (SYX_DATA.length) inp with
          | mk res rest =>
            cases res with
            | ok lit => dsimp only; split <;> simp
            | error e => simp) fun u3 => ?_
        have ndsz : ∀ sz ty, ND (check_size nm sz ty) := by
          intro sz ty inp
          unfold check_size
          cases hr : loadU8 nm inp with
          | mk res rest =>
            cases res with
            | ok b => dsimp only; split <;> simp
            | error e => simp
        refine nd_pbind (ndsz 4 "i32") fun u4 => ?_
        refine nd_pbind (ndsz 8 "usize") fun u5 => ?_
        refine nd_pbind (ndsz 4 "Word") fun u6 => ?_
        refine nd_pbind (ndsz 8 "SyxInteger") fun u7 => ?_
        refine nd_pbind (ndsz 8 "SyxNumber") fun u8 => ?_
        refine nd_pbind (nd_loadSyxInt nm) fun i1 => ?_
        refine nd_pbind (by intro inp; unfold assertv; split <;> simp) fun u9 => ?_
        refine nd_pbind (nd_loadScalar nm 8) fun f1 => ?_
        refine nd_pbind (by intro inp; unfold assertv; split <;> simp) fun u10 => ?_
        exact nd_ppure _
    exact fun hD1 => hnd input hD1
  rcases pbind_depth hD with hD1 | ⟨b, r2, ho2, hD⟩
  · exact nd_loadU8 nm _ hD1
  have hr1 : r1.length ≤ input.length := rest_len_le (good_check_header nm).1 ho1
  have hr2 : r2.length ≤ r1.length := rest_len_le (good_loadU8 nm).1 ho2
  exact loadFunction_no_depth nm fuel [] r2 (by omega) hD

/-! ### Claims C2 and C3 -/

theorem from_u8_ok_inv {b : List Nat} {nm : String} {Pr : Proto}
    (h : from_u8 b nm = Except.ok Pr) :
    loadChunk nm (b.length + 1) b = (Except.ok Pr, []) := by
  unfold from_u8 at h
  cases hc : loadChunk nm (b.length + 1) b with
  | mk res rest =>
    rw [hc] at h
    cases res with
    | error e => simp at h
    | ok P' =>
      dsimp only at h
      cases hu : loadU8 nm rest with
      | mk res2 rest2 =>
        rw [hu] at h
        cases res2 with
        | ok x => simp at h
        | error e2 =>
          dsimp only at h
          injection h with h1
          obtain ⟨hrest, _⟩ := loadU8_err_inv nm hu
          rw [hrest, h1]

/-- Claim C2: for every byte buffer that decodes successfully and every strict
prefix of it, decoding the prefix fails with the truncation error — raised by
the code as `InvalidVerification` ("Not enough bytes"), which is within the
claim's `TruncatedInput` / `InvalidVerification` disjunction — and never
returns a Prototype. -/
theorem claim_C2_prefix_truncation (b : List Nat) (nm : String) (Pr : Proto)
    (hB : Bytes b) (hok : from_u8 b nm = Except.ok Pr)
    (p : List Nat) (hp : p <+: b) (hne : p ≠ b) :
    isInvalidVerification (from_u8 p nm) = true := by
  have hchunk : loadChunk nm (b.length + 1) b = (Except.ok Pr, []) :=
    from_u8_ok_inv hok
  obtain ⟨_, _, htr⟩ := good_loadChunk nm (b.length + 1)
  have hb0 : loadChunk nm (b.length + 1) (b ++ []) = (Except.ok Pr, []) := by
    rw [List.append_nil]
    exact hchunk
  obtain ⟨m, hm⟩ := htr b Pr [] p hB hb0 hp hne
  have hple : p.length + 1 ≤ b.length + 1 := by
    have := hp.length_le
    omega
  have hnd := loadChunk_no_depth nm (p.length + 1) p (by omega)
  have htrans := loadChunk_fuel_le nm (p.length + 1) (b.length + 1) p
    (loadChunk nm (p.length + 1) p) hple rfl hnd
  have hout : loadChunk nm (p.length + 1) p =
      (Except.error (ErrorKind.InvalidVerification nm m), []) :=
    htrans.symm.trans hm
  rw [from_u8_of_chunk_err p nm _ [] hout]
  rfl

/-- Claim C3: appending extra bytes to a successfully decoding buffer makes the
decode fail with `BufferNotEmpty` (the spec's TrailingData): the loader probes
one more byte after the root function block, and overall success means that
probe failed from exhaustion — equivalently, `load_chunk` had consumed the
entire buffer (second conjunct). -/
theorem claim_C3_trailing_bytes (b : List Nat) (nm : String) (Pr : Proto)
    (e : List Nat) (hB : Bytes b) (hok : from_u8 b nm = Except.ok Pr)
    (hne : e ≠ []) :
    from_u8 (b ++ e) nm = Except.error ErrorKind.BufferNotEmpty ∧
    loadChunk nm (b.length + 1) b = (Except.ok Pr, []) := by
  have hchunk := from_u8_ok_inv hok
  refine ⟨?_, hchunk⟩
  obtain ⟨_, hext, _⟩ := good_loadChunk nm (b.length + 1)
  have hb0 : loadChunk nm (b.length + 1) (b ++ []) = (Except.ok Pr, []) := by
    rw [List.append_nil]
    exact hchunk
  have hbe := hext b Pr [] e hB hb0
  have hle : b.length + 1 ≤ (b ++ e).length + 1 := by simp
  have htrans := loadChunk_fuel_le nm (b.length + 1) ((b ++ e).length + 1)
    (b ++ e) (Except.ok Pr, e) hle hbe (by simp)
  cases e with
  | nil => exact absurd rfl hne
  | cons x e' => exact from_u8_of_chunk_leftover (b ++ (x :: e')) nm Pr x e' htrans

/-- The minimal valid dump: header, discarded byte, then a root block with the
empty name and no instructions, constants, upvalues, protos or debug records. -/
def minDump : List Nat := headerBytes ++ [0] ++ childBlockEmptyName

theorem minDump_decodes : from_u8 minDump "x" = Except.ok childProtoEmpty := rfl

set_option maxRecDepth 20000 in
/-- Witness for C2: the minimal dump truncated to its first 50 bytes. -/
theorem claim_C2_prefix_truncation_witness :
    isInvalidVerification (from_u8 (minDump.take 50) "x") = true :=
  claim_C2_prefix_truncation minDump "x" childProtoEmpty
    (by unfold Bytes; decide) minDump_decodes (minDump.take 50)
    ⟨minDump.drop 50, List.take_append_drop 50 minDump⟩
    (by
      intro h
      have := congrArg List.length h
      simp [minDump, headerBytes, childBlockEmptyName, intBytes_length,
        leBytes_length, SYX_HEADER, SYX_DATA] at this)

set_option maxRecDepth 20000 in
/-- Witness for C3: the minimal dump with one extra byte. -/
theorem claim_C3_trailing_bytes_witness :
    from_u8 (minDump ++ [7]) "x" = Except.error ErrorKind.BufferNotEmpty ∧
    loadChunk "x" (minDump.length + 1) minDump = (Except.ok childProtoEmpty, []) :=
  claim_C3_trailing_bytes minDump "x" childProtoEmpty [7]
    (by unfold Bytes; decide) minDump_decodes (by decide)
